import Mathlib

/-!
# pwHash: a shallow embedding of `main.go`

The program is a command-line wrapper around `golang.org/x/crypto/bcrypt`:
`validateArgs` parses `os.Args`, and `main` dispatches to `hash`, `compare`
and `cost`, three thin calls into the bcrypt package.

Conventions of the embedding.

* A Go `string` and a Go `[]byte` are both a `List UInt8`; the conversions
  `[]byte(s)` and `string(b)` are the identity.  `len` is `List.length`: it
  counts bytes, as in Go.
* A Go `int` is an `Int`; where the width matters (`strconv.Atoi`) it is 64 bits.
* A Go `error` is an `Option GoError`, `none` being `nil`.
* A call of a Go function has one of three outcomes (`Go`): it returns to its
  caller, it ends the process through `log.Fatalln`, or it panics.
* What the program takes from outside is passed explicitly: the Unicode case
  tables behind `strings.ToLower` (`U`), and for the bcrypt package, which is
  not part of the sources of the program, the record `Env`: the result of its
  read of `crypto/rand.Reader`, and its treatment of a cost below the range.
* What `main` writes to standard output is a list of `Out` events, one per
  `fmt` call; the `log.Println` lines (standard error, time stamped) are not
  modelled.
-/

namespace PwHash

/-! ## Go values -/

/-- A Go string, or byte slice: a sequence of bytes. -/
abbrev GoString := List UInt8

/-- The byte of an ASCII character literal, as in Go `'a'`. -/
def ch (c : Char) : UInt8 := c.toNat.toUInt8

/-- A Go string literal: the UTF-8 encoding of its text. -/
def str (s : String) : GoString := s.data.flatMap String.utf8EncodeChar

/-- The two error kinds of `strconv`. -/
inductive NumErr where
  | ErrSyntax
  | ErrRange
  deriving DecidableEq, Repr

/-- The error values the program can meet. -/
inductive GoError where
  /-- Result of `errors.New(text)`. -/
  | errorsNew (text : String)
  /-- Result of `fmt.Errorf(format, err)` with a `%w` verb: `pre` is the text before the verb. -/
  | wrapped (pre : String) (err : GoError)
  /-- A `*strconv.NumError`. -/
  | numError (func : String) (num : GoString) (err : NumErr)
  /-- A `base64.CorruptInputError`. -/
  | CorruptInputError (pos : Int)
  /-- A `blowfish.KeySizeError`. -/
  | KeySizeError (k : Int)
  | ErrMismatchedHashAndPassword
  | ErrHashTooShort
  | HashVersionTooNewError (b : UInt8)
  | InvalidHashPrefixError (b : UInt8)
  | InvalidCostError (cost : Int)
  deriving DecidableEq, Repr

/-- What `log.Fatalln` was given: an error, or a text. -/
inductive LogMsg where
  | err (e : GoError)
  | text (s : String)
  deriving DecidableEq, Repr

/-- The outcome of calling a Go function. -/
inductive Go (α : Type) where
  /-- The call returns `a` to its caller. -/
  | ret (a : α)
  /-- The call reached `log.Fatalln(msg)`: the message is logged and the process
  ends with `os.Exit(1)`; the caller never resumes. -/
  | fatal (msg : LogMsg)
  /-- A run-time panic (an index out of range). -/
  | panic (msg : String)
  deriving DecidableEq, Repr

/-- Sequencing of Go calls: a fatal exit or a panic ends the run. -/
def Go.bind {α β : Type} (x : Go α) (f : α → Go β) : Go β :=
  match x with
  | .ret a => f a
  | .fatal m => .fatal m
  | .panic m => .panic m

instance : Monad Go where
  pure := Go.ret
  bind := Go.bind

/-- The index expression `xs[i]` of Go: it panics when `i` is out of range. -/
def index {α : Type} (xs : List α) (i : Nat) : Go α :=
  match xs[i]? with
  | some x => .ret x
  | none => .panic "index out of range"

/-! ## `strings.ToLower` -/

/-- Lower-casing of one ASCII byte: `c += 'a' - 'A'` for `'A' <= c <= 'Z'`. -/
def lowerByte (c : UInt8) : UInt8 :=
  if ch 'A' ≤ c ∧ c ≤ ch 'Z' then c + (ch 'a' - ch 'A') else c

/-- Go `strings.ToLower`.  A string of ASCII bytes only (all below `utf8.RuneSelf`)
is mapped byte by byte; any other string goes through
`strings.Map(unicode.ToLower, s)`, which depends on the Unicode tables of the Go
run time and is the parameter `U`. -/
def ToLower (U : GoString → GoString) (s : GoString) : GoString :=
  if s.all (fun c => c < 0x80) then s.map lowerByte else U s

/-! ## `strconv.Atoi` (64-bit `int`) -/

/-- The digit loop of `strconv.ParseUint(s, 10, 64)`: `n` is the value so far.
The result is the value, or the error kind (with `maxVal` on overflow). -/
def parseUintLoop : GoString → Nat → Nat × Option NumErr
  | [], n => (n, none)
  | c :: cs, n =>
    if ch '0' ≤ c ∧ c ≤ ch '9' then
      let d := (c - ch '0').toNat
      -- cutoff = maxUint64/10 + 1: n*base overflows
      if n ≥ (2 ^ 64 - 1) / 10 + 1 then (2 ^ 64 - 1, some .ErrRange)
      else
        let n := n * 10
        let n1 := (n + d) % 2 ^ 64
        if n1 < n ∨ n1 > 2 ^ 64 - 1 then (2 ^ 64 - 1, some .ErrRange)
        else parseUintLoop cs n1
    else (0, some .ErrSyntax)

/-- Go `strconv.ParseUint(s, 10, 64)`, without the `NumError` wrapping. -/
def ParseUint (s : GoString) : Nat × Option NumErr :=
  if s = [] then (0, some .ErrSyntax) else parseUintLoop s 0

/-- Go `strconv.ParseInt(s, 10, 0)`, without the `NumError` wrapping. -/
def ParseInt (s : GoString) : Int × Option NumErr :=
  match s with
  | [] => (0, some .ErrSyntax)
  | c :: cs =>
    let neg := c = ch '-'
    let s1 := if c = ch '+' ∨ c = ch '-' then cs else s
    match ParseUint s1 with
    | (_, some .ErrSyntax) => (0, some .ErrSyntax)
    | (un, _) =>
      -- cutoff = 1 << 63
      if ¬ neg ∧ un ≥ 2 ^ 63 then (2 ^ 63 - 1, some .ErrRange)
      else if neg ∧ un > 2 ^ 63 then (-(2 ^ 63), some .ErrRange)
      else (if neg then -(un : Int) else (un : Int), none)

/-- The digit loop of the fast path of `strconv.Atoi`. -/
def atoiLoop : GoString → Int → Option Int
  | [], n => some n
  | c :: cs, n =>
    let d := c - ch '0'
    if d > 9 then none else atoiLoop cs (n * 10 + d.toNat)

/-- Go `strconv.Atoi` on a 64-bit platform: the value and the error. -/
def Atoi (s : GoString) : Int × Option GoError :=
  match s with
  | [] =>
    (0, some (.numError "Atoi" s .ErrSyntax))
  | c :: cs =>
    if s.length < 19 then
      -- fast path for small integers that fit the int type
      let s1 := if c = ch '-' ∨ c = ch '+' then cs else s
      if s1.length < 1 then (0, some (.numError "Atoi" s .ErrSyntax))
      else
        match atoiLoop s1 0 with
        | none => (0, some (.numError "Atoi" s .ErrSyntax))
        | some n => (if c = ch '-' then -n else n, none)
    else
      match ParseInt s with
      | (i, some e) => (i, some (.numError "Atoi" s e))
      | (i, none) => (i, none)

/-! ## `golang.org/x/crypto/blowfish`

32-bit words are natural numbers below `2 ^ 32`; every addition is reduced
modulo `2 ^ 32`.  The arrays `[18]uint32` and `[256]uint32` of a `Cipher` are
lists of that length; an S-box is only ever indexed by a byte. -/

namespace blowfish

/-- Initial subkeys `p` of `blowfish/const.go`: the first hexadecimal digits of pi. -/
def p : List Nat := [
  0x243f6a88, 0x85a308d3, 0x13198a2e, 0x03707344, 0xa4093822, 0x299f31d0, 0x082efa98, 0xec4e6c89,
  0x452821e6, 0x38d01377, 0xbe5466cf, 0x34e90c6c, 0xc0ac29b7, 0xc97c50dd, 0x3f84d5b5, 0xb5470917,
  0x9216d5d9, 0x8979fb1b]

/-- Initial substitution box `s0` of `blowfish/const.go`. -/
def s0 : List Nat := [
  0xd1310ba6, 0x98dfb5ac, 0x2ffd72db, 0xd01adfb7, 0xb8e1afed, 0x6a267e96, 0xba7c9045, 0xf12c7f99,
  0x24a19947, 0xb3916cf7, 0x0801f2e2, 0x858efc16, 0x636920d8, 0x71574e69, 0xa458fea3, 0xf4933d7e,
  0x0d95748f, 0x728eb658, 0x718bcd58, 0x82154aee, 0x7b54a41d, 0xc25a59b5, 0x9c30d539, 0x2af26013,
  0xc5d1b023, 0x286085f0, 0xca417918, 0xb8db38ef, 0x8e79dcb0, 0x603a180e, 0x6c9e0e8b, 0xb01e8a3e,
  0xd71577c1, 0xbd314b27, 0x78af2fda, 0x55605c60, 0xe65525f3, 0xaa55ab94, 0x57489862, 0x63e81440,
  0x55ca396a, 0x2aab10b6, 0xb4cc5c34, 0x1141e8ce, 0xa15486af, 0x7c72e993, 0xb3ee1411, 0x636fbc2a,
  0x2ba9c55d, 0x741831f6, 0xce5c3e16, 0x9b87931e, 0xafd6ba33, 0x6c24cf5c, 0x7a325381, 0x28958677,
  0x3b8f4898, 0x6b4bb9af, 0xc4bfe81b, 0x66282193, 0x61d809cc, 0xfb21a991, 0x487cac60, 0x5dec8032,
  0xef845d5d, 0xe98575b1, 0xdc262302, 0xeb651b88, 0x23893e81, 0xd396acc5, 0x0f6d6ff3, 0x83f44239,
  0x2e0b4482, 0xa4842004, 0x69c8f04a, 0x9e1f9b5e, 0x21c66842, 0xf6e96c9a, 0x670c9c61, 0xabd388f0,
  0x6a51a0d2, 0xd8542f68, 0x960fa728, 0xab5133a3, 0x6eef0b6c, 0x137a3be4, 0xba3bf050, 0x7efb2a98,
  0xa1f1651d, 0x39af0176, 0x66ca593e, 0x82430e88, 0x8cee8619, 0x456f9fb4, 0x7d84a5c3, 0x3b8b5ebe,
  0xe06f75d8, 0x85c12073, 0x401a449f, 0x56c16aa6, 0x4ed3aa62, 0x363f7706, 0x1bfedf72, 0x429b023d,
  0x37d0d724, 0xd00a1248, 0xdb0fead3, 0x49f1c09b, 0x075372c9, 0x80991b7b, 0x25d479d8, 0xf6e8def7,
  0xe3fe501a, 0xb6794c3b, 0x976ce0bd, 0x04c006ba, 0xc1a94fb6, 0x409f60c4, 0x5e5c9ec2, 0x196a2463,
  0x68fb6faf, 0x3e6c53b5, 0x1339b2eb, 0x3b52ec6f, 0x6dfc511f, 0x9b30952c, 0xcc814544, 0xaf5ebd09,
  0xbee3d004, 0xde334afd, 0x660f2807, 0x192e4bb3, 0xc0cba857, 0x45c8740f, 0xd20b5f39, 0xb9d3fbdb,
  0x5579c0bd, 0x1a60320a, 0xd6a100c6, 0x402c7279, 0x679f25fe, 0xfb1fa3cc, 0x8ea5e9f8, 0xdb3222f8,
  0x3c7516df, 0xfd616b15, 0x2f501ec8, 0xad0552ab, 0x323db5fa, 0xfd238760, 0x53317b48, 0x3e00df82,
  0x9e5c57bb, 0xca6f8ca0, 0x1a87562e, 0xdf1769db, 0xd542a8f6, 0x287effc3, 0xac6732c6, 0x8c4f5573,
  0x695b27b0, 0xbbca58c8, 0xe1ffa35d, 0xb8f011a0, 0x10fa3d98, 0xfd2183b8, 0x4afcb56c, 0x2dd1d35b,
  0x9a53e479, 0xb6f84565, 0xd28e49bc, 0x4bfb9790, 0xe1ddf2da, 0xa4cb7e33, 0x62fb1341, 0xcee4c6e8,
  0xef20cada, 0x36774c01, 0xd07e9efe, 0x2bf11fb4, 0x95dbda4d, 0xae909198, 0xeaad8e71, 0x6b93d5a0,
  0xd08ed1d0, 0xafc725e0, 0x8e3c5b2f, 0x8e7594b7, 0x8ff6e2fb, 0xf2122b64, 0x8888b812, 0x900df01c,
  0x4fad5ea0, 0x688fc31c, 0xd1cff191, 0xb3a8c1ad, 0x2f2f2218, 0xbe0e1777, 0xea752dfe, 0x8b021fa1,
  0xe5a0cc0f, 0xb56f74e8, 0x18acf3d6, 0xce89e299, 0xb4a84fe0, 0xfd13e0b7, 0x7cc43b81, 0xd2ada8d9,
  0x165fa266, 0x80957705, 0x93cc7314, 0x211a1477, 0xe6ad2065, 0x77b5fa86, 0xc75442f5, 0xfb9d35cf,
  0xebcdaf0c, 0x7b3e89a0, 0xd6411bd3, 0xae1e7e49, 0x00250e2d, 0x2071b35e, 0x226800bb, 0x57b8e0af,
  0x2464369b, 0xf009b91e, 0x5563911d, 0x59dfa6aa, 0x78c14389, 0xd95a537f, 0x207d5ba2, 0x02e5b9c5,
  0x83260376, 0x6295cfa9, 0x11c81968, 0x4e734a41, 0xb3472dca, 0x7b14a94a, 0x1b510052, 0x9a532915,
  0xd60f573f, 0xbc9bc6e4, 0x2b60a476, 0x81e67400, 0x08ba6fb5, 0x571be91f, 0xf296ec6b, 0x2a0dd915,
  0xb6636521, 0xe7b9f9b6, 0xff34052e, 0xc5855664, 0x53b02d5d, 0xa99f8fa1, 0x08ba4799, 0x6e85076a]

/-- Initial substitution box `s1` of `blowfish/const.go`. -/
def s1 : List Nat := [
  0x4b7a70e9, 0xb5b32944, 0xdb75092e, 0xc4192623, 0xad6ea6b0, 0x49a7df7d, 0x9cee60b8, 0x8fedb266,
  0xecaa8c71, 0x699a17ff, 0x5664526c, 0xc2b19ee1, 0x193602a5, 0x75094c29, 0xa0591340, 0xe4183a3e,
  0x3f54989a, 0x5b429d65, 0x6b8fe4d6, 0x99f73fd6, 0xa1d29c07, 0xefe830f5, 0x4d2d38e6, 0xf0255dc1,
  0x4cdd2086, 0x8470eb26, 0x6382e9c6, 0x021ecc5e, 0x09686b3f, 0x3ebaefc9, 0x3c971814, 0x6b6a70a1,
  0x687f3584, 0x52a0e286, 0xb79c5305, 0xaa500737, 0x3e07841c, 0x7fdeae5c, 0x8e7d44ec, 0x5716f2b8,
  0xb03ada37, 0xf0500c0d, 0xf01c1f04, 0x0200b3ff, 0xae0cf51a, 0x3cb574b2, 0x25837a58, 0xdc0921bd,
  0xd19113f9, 0x7ca92ff6, 0x94324773, 0x22f54701, 0x3ae5e581, 0x37c2dadc, 0xc8b57634, 0x9af3dda7,
  0xa9446146, 0x0fd0030e, 0xecc8c73e, 0xa4751e41, 0xe238cd99, 0x3bea0e2f, 0x3280bba1, 0x183eb331,
  0x4e548b38, 0x4f6db908, 0x6f420d03, 0xf60a04bf, 0x2cb81290, 0x24977c79, 0x5679b072, 0xbcaf89af,
  0xde9a771f, 0xd9930810, 0xb38bae12, 0xdccf3f2e, 0x5512721f, 0x2e6b7124, 0x501adde6, 0x9f84cd87,
  0x7a584718, 0x7408da17, 0xbc9f9abc, 0xe94b7d8c, 0xec7aec3a, 0xdb851dfa, 0x63094366, 0xc464c3d2,
  0xef1c1847, 0x3215d908, 0xdd433b37, 0x24c2ba16, 0x12a14d43, 0x2a65c451, 0x50940002, 0x133ae4dd,
  0x71dff89e, 0x10314e55, 0x81ac77d6, 0x5f11199b, 0x043556f1, 0xd7a3c76b, 0x3c11183b, 0x5924a509,
  0xf28fe6ed, 0x97f1fbfa, 0x9ebabf2c, 0x1e153c6e, 0x86e34570, 0xeae96fb1, 0x860e5e0a, 0x5a3e2ab3,
  0x771fe71c, 0x4e3d06fa, 0x2965dcb9, 0x99e71d0f, 0x803e89d6, 0x5266c825, 0x2e4cc978, 0x9c10b36a,
  0xc6150eba, 0x94e2ea78, 0xa5fc3c53, 0x1e0a2df4, 0xf2f74ea7, 0x361d2b3d, 0x1939260f, 0x19c27960,
  0x5223a708, 0xf71312b6, 0xebadfe6e, 0xeac31f66, 0xe3bc4595, 0xa67bc883, 0xb17f37d1, 0x018cff28,
  0xc332ddef, 0xbe6c5aa5, 0x65582185, 0x68ab9802, 0xeecea50f, 0xdb2f953b, 0x2aef7dad, 0x5b6e2f84,
  0x1521b628, 0x29076170, 0xecdd4775, 0x619f1510, 0x13cca830, 0xeb61bd96, 0x0334fe1e, 0xaa0363cf,
  0xb5735c90, 0x4c70a239, 0xd59e9e0b, 0xcbaade14, 0xeecc86bc, 0x60622ca7, 0x9cab5cab, 0xb2f3846e,
  0x648b1eaf, 0x19bdf0ca, 0xa02369b9, 0x655abb50, 0x40685a32, 0x3c2ab4b3, 0x319ee9d5, 0xc021b8f7,
  0x9b540b19, 0x875fa099, 0x95f7997e, 0x623d7da8, 0xf837889a, 0x97e32d77, 0x11ed935f, 0x16681281,
  0x0e358829, 0xc7e61fd6, 0x96dedfa1, 0x7858ba99, 0x57f584a5, 0x1b227263, 0x9b83c3ff, 0x1ac24696,
  0xcdb30aeb, 0x532e3054, 0x8fd948e4, 0x6dbc3128, 0x58ebf2ef, 0x34c6ffea, 0xfe28ed61, 0xee7c3c73,
  0x5d4a14d9, 0xe864b7e3, 0x42105d14, 0x203e13e0, 0x45eee2b6, 0xa3aaabea, 0xdb6c4f15, 0xfacb4fd0,
  0xc742f442, 0xef6abbb5, 0x654f3b1d, 0x41cd2105, 0xd81e799e, 0x86854dc7, 0xe44b476a, 0x3d816250,
  0xcf62a1f2, 0x5b8d2646, 0xfc8883a0, 0xc1c7b6a3, 0x7f1524c3, 0x69cb7492, 0x47848a0b, 0x5692b285,
  0x095bbf00, 0xad19489d, 0x1462b174, 0x23820e00, 0x58428d2a, 0x0c55f5ea, 0x1dadf43e, 0x233f7061,
  0x3372f092, 0x8d937e41, 0xd65fecf1, 0x6c223bdb, 0x7cde3759, 0xcbee7460, 0x4085f2a7, 0xce77326e,
  0xa6078084, 0x19f8509e, 0xe8efd855, 0x61d99735, 0xa969a7aa, 0xc50c06c2, 0x5a04abfc, 0x800bcadc,
  0x9e447a2e, 0xc3453484, 0xfdd56705, 0x0e1e9ec9, 0xdb73dbd3, 0x105588cd, 0x675fda79, 0xe3674340,
  0xc5c43465, 0x713e38d8, 0x3d28f89e, 0xf16dff20, 0x153e21e7, 0x8fb03d4a, 0xe6e39f2b, 0xdb83adf7]

/-- Initial substitution box `s2` of `blowfish/const.go`. -/
def s2 : List Nat := [
  0xe93d5a68, 0x948140f7, 0xf64c261c, 0x94692934, 0x411520f7, 0x7602d4f7, 0xbcf46b2e, 0xd4a20068,
  0xd4082471, 0x3320f46a, 0x43b7d4b7, 0x500061af, 0x1e39f62e, 0x97244546, 0x14214f74, 0xbf8b8840,
  0x4d95fc1d, 0x96b591af, 0x70f4ddd3, 0x66a02f45, 0xbfbc09ec, 0x03bd9785, 0x7fac6dd0, 0x31cb8504,
  0x96eb27b3, 0x55fd3941, 0xda2547e6, 0xabca0a9a, 0x28507825, 0x530429f4, 0x0a2c86da, 0xe9b66dfb,
  0x68dc1462, 0xd7486900, 0x680ec0a4, 0x27a18dee, 0x4f3ffea2, 0xe887ad8c, 0xb58ce006, 0x7af4d6b6,
  0xaace1e7c, 0xd3375fec, 0xce78a399, 0x406b2a42, 0x20fe9e35, 0xd9f385b9, 0xee39d7ab, 0x3b124e8b,
  0x1dc9faf7, 0x4b6d1856, 0x26a36631, 0xeae397b2, 0x3a6efa74, 0xdd5b4332, 0x6841e7f7, 0xca7820fb,
  0xfb0af54e, 0xd8feb397, 0x454056ac, 0xba489527, 0x55533a3a, 0x20838d87, 0xfe6ba9b7, 0xd096954b,
  0x55a867bc, 0xa1159a58, 0xcca92963, 0x99e1db33, 0xa62a4a56, 0x3f3125f9, 0x5ef47e1c, 0x9029317c,
  0xfdf8e802, 0x04272f70, 0x80bb155c, 0x05282ce3, 0x95c11548, 0xe4c66d22, 0x48c1133f, 0xc70f86dc,
  0x07f9c9ee, 0x41041f0f, 0x404779a4, 0x5d886e17, 0x325f51eb, 0xd59bc0d1, 0xf2bcc18f, 0x41113564,
  0x257b7834, 0x602a9c60, 0xdff8e8a3, 0x1f636c1b, 0x0e12b4c2, 0x02e1329e, 0xaf664fd1, 0xcad18115,
  0x6b2395e0, 0x333e92e1, 0x3b240b62, 0xeebeb922, 0x85b2a20e, 0xe6ba0d99, 0xde720c8c, 0x2da2f728,
  0xd0127845, 0x95b794fd, 0x647d0862, 0xe7ccf5f0, 0x5449a36f, 0x877d48fa, 0xc39dfd27, 0xf33e8d1e,
  0x0a476341, 0x992eff74, 0x3a6f6eab, 0xf4f8fd37, 0xa812dc60, 0xa1ebddf8, 0x991be14c, 0xdb6e6b0d,
  0xc67b5510, 0x6d672c37, 0x2765d43b, 0xdcd0e804, 0xf1290dc7, 0xcc00ffa3, 0xb5390f92, 0x690fed0b,
  0x667b9ffb, 0xcedb7d9c, 0xa091cf0b, 0xd9155ea3, 0xbb132f88, 0x515bad24, 0x7b9479bf, 0x763bd6eb,
  0x37392eb3, 0xcc115979, 0x8026e297, 0xf42e312d, 0x6842ada7, 0xc66a2b3b, 0x12754ccc, 0x782ef11c,
  0x6a124237, 0xb79251e7, 0x06a1bbe6, 0x4bfb6350, 0x1a6b1018, 0x11caedfa, 0x3d25bdd8, 0xe2e1c3c9,
  0x44421659, 0x0a121386, 0xd90cec6e, 0xd5abea2a, 0x64af674e, 0xda86a85f, 0xbebfe988, 0x64e4c3fe,
  0x9dbc8057, 0xf0f7c086, 0x60787bf8, 0x6003604d, 0xd1fd8346, 0xf6381fb0, 0x7745ae04, 0xd736fccc,
  0x83426b33, 0xf01eab71, 0xb0804187, 0x3c005e5f, 0x77a057be, 0xbde8ae24, 0x55464299, 0xbf582e61,
  0x4e58f48f, 0xf2ddfda2, 0xf474ef38, 0x8789bdc2, 0x5366f9c3, 0xc8b38e74, 0xb475f255, 0x46fcd9b9,
  0x7aeb2661, 0x8b1ddf84, 0x846a0e79, 0x915f95e2, 0x466e598e, 0x20b45770, 0x8cd55591, 0xc902de4c,
  0xb90bace1, 0xbb8205d0, 0x11a86248, 0x7574a99e, 0xb77f19b6, 0xe0a9dc09, 0x662d09a1, 0xc4324633,
  0xe85a1f02, 0x09f0be8c, 0x4a99a025, 0x1d6efe10, 0x1ab93d1d, 0x0ba5a4df, 0xa186f20f, 0x2868f169,
  0xdcb7da83, 0x573906fe, 0xa1e2ce9b, 0x4fcd7f52, 0x50115e01, 0xa70683fa, 0xa002b5c4, 0x0de6d027,
  0x9af88c27, 0x773f8641, 0xc3604c06, 0x61a806b5, 0xf0177a28, 0xc0f586e0, 0x006058aa, 0x30dc7d62,
  0x11e69ed7, 0x2338ea63, 0x53c2dd94, 0xc2c21634, 0xbbcbee56, 0x90bcb6de, 0xebfc7da1, 0xce591d76,
  0x6f05e409, 0x4b7c0188, 0x39720a3d, 0x7c927c24, 0x86e3725f, 0x724d9db9, 0x1ac15bb4, 0xd39eb8fc,
  0xed545578, 0x08fca5b5, 0xd83d7cd3, 0x4dad0fc4, 0x1e50ef5e, 0xb161e6f8, 0xa28514d9, 0x6c51133c,
  0x6fd5c7e7, 0x56e14ec4, 0x362abfce, 0xddc6c837, 0xd79a3234, 0x92638212, 0x670efa8e, 0x406000e0]

/-- Initial substitution box `s3` of `blowfish/const.go`. -/
def s3 : List Nat := [
  0x3a39ce37, 0xd3faf5cf, 0xabc27737, 0x5ac52d1b, 0x5cb0679e, 0x4fa33742, 0xd3822740, 0x99bc9bbe,
  0xd5118e9d, 0xbf0f7315, 0xd62d1c7e, 0xc700c47b, 0xb78c1b6b, 0x21a19045, 0xb26eb1be, 0x6a366eb4,
  0x5748ab2f, 0xbc946e79, 0xc6a376d2, 0x6549c2c8, 0x530ff8ee, 0x468dde7d, 0xd5730a1d, 0x4cd04dc6,
  0x2939bbdb, 0xa9ba4650, 0xac9526e8, 0xbe5ee304, 0xa1fad5f0, 0x6a2d519a, 0x63ef8ce2, 0x9a86ee22,
  0xc089c2b8, 0x43242ef6, 0xa51e03aa, 0x9cf2d0a4, 0x83c061ba, 0x9be96a4d, 0x8fe51550, 0xba645bd6,
  0x2826a2f9, 0xa73a3ae1, 0x4ba99586, 0xef5562e9, 0xc72fefd3, 0xf752f7da, 0x3f046f69, 0x77fa0a59,
  0x80e4a915, 0x87b08601, 0x9b09e6ad, 0x3b3ee593, 0xe990fd5a, 0x9e34d797, 0x2cf0b7d9, 0x022b8b51,
  0x96d5ac3a, 0x017da67d, 0xd1cf3ed6, 0x7c7d2d28, 0x1f9f25cf, 0xadf2b89b, 0x5ad6b472, 0x5a88f54c,
  0xe029ac71, 0xe019a5e6, 0x47b0acfd, 0xed93fa9b, 0xe8d3c48d, 0x283b57cc, 0xf8d56629, 0x79132e28,
  0x785f0191, 0xed756055, 0xf7960e44, 0xe3d35e8c, 0x15056dd4, 0x88f46dba, 0x03a16125, 0x0564f0bd,
  0xc3eb9e15, 0x3c9057a2, 0x97271aec, 0xa93a072a, 0x1b3f6d9b, 0x1e6321f5, 0xf59c66fb, 0x26dcf319,
  0x7533d928, 0xb155fdf5, 0x03563482, 0x8aba3cbb, 0x28517711, 0xc20ad9f8, 0xabcc5167, 0xccad925f,
  0x4de81751, 0x3830dc8e, 0x379d5862, 0x9320f991, 0xea7a90c2, 0xfb3e7bce, 0x5121ce64, 0x774fbe32,
  0xa8b6e37e, 0xc3293d46, 0x48de5369, 0x6413e680, 0xa2ae0810, 0xdd6db224, 0x69852dfd, 0x09072166,
  0xb39a460a, 0x6445c0dd, 0x586cdecf, 0x1c20c8ae, 0x5bbef7dd, 0x1b588d40, 0xccd2017f, 0x6bb4e3bb,
  0xdda26a7e, 0x3a59ff45, 0x3e350a44, 0xbcb4cdd5, 0x72eacea8, 0xfa6484bb, 0x8d6612ae, 0xbf3c6f47,
  0xd29be463, 0x542f5d9e, 0xaec2771b, 0xf64e6370, 0x740e0d8d, 0xe75b1357, 0xf8721671, 0xaf537d5d,
  0x4040cb08, 0x4eb4e2cc, 0x34d2466a, 0x0115af84, 0xe1b00428, 0x95983a1d, 0x06b89fb4, 0xce6ea048,
  0x6f3f3b82, 0x3520ab82, 0x011a1d4b, 0x277227f8, 0x611560b1, 0xe7933fdc, 0xbb3a792b, 0x344525bd,
  0xa08839e1, 0x51ce794b, 0x2f32c9b7, 0xa01fbac9, 0xe01cc87e, 0xbcc7d1f6, 0xcf0111c3, 0xa1e8aac7,
  0x1a908749, 0xd44fbd9a, 0xd0dadecb, 0xd50ada38, 0x0339c32a, 0xc6913667, 0x8df9317c, 0xe0b12b4f,
  0xf79e59b7, 0x43f5bb3a, 0xf2d519ff, 0x27d9459c, 0xbf97222c, 0x15e6fc2a, 0x0f91fc71, 0x9b941525,
  0xfae59361, 0xceb69ceb, 0xc2a86459, 0x12baa8d1, 0xb6c1075e, 0xe3056a0c, 0x10d25065, 0xcb03a442,
  0xe0ec6e0e, 0x1698db3b, 0x4c98a0be, 0x3278e964, 0x9f1f9532, 0xe0d392df, 0xd3a0342b, 0x8971f21e,
  0x1b0a7441, 0x4ba3348c, 0xc5be7120, 0xc37632d8, 0xdf359f8d, 0x9b992f2e, 0xe60b6f47, 0x0fe3f11d,
  0xe54cda54, 0x1edad891, 0xce6279cf, 0xcd3e7e6f, 0x1618b166, 0xfd2c1d05, 0x848fd2c5, 0xf6fb2299,
  0xf523f357, 0xa6327623, 0x93a83531, 0x56cccd02, 0xacf08162, 0x5a75ebb5, 0x6e163697, 0x88d273cc,
  0xde966292, 0x81b949d0, 0x4c50901b, 0x71c65614, 0xe6c6c7bd, 0x327a140a, 0x45e1d006, 0xc3f27b9a,
  0xc9aa53fd, 0x62a80f00, 0xbb25bfe2, 0x35bdd2f6, 0x71126905, 0xb2040222, 0xb6cbcf7c, 0xcd769c2b,
  0x53113ec0, 0x1640e3d3, 0x38abbd60, 0x2547adf0, 0xba38209c, 0xf746ce76, 0x77afa1c5, 0x20756060,
  0x85cbfe4e, 0x8ae88dd8, 0x7aaaf9b0, 0x4cf9aa7e, 0x1948c25c, 0x02fb8a8c, 0x01c36ae4, 0xd6ebe1f9,
  0x90d4f869, 0xa65cdea0, 0x3f09252d, 0xc208e69f, 0xb74e6132, 0xce77e25b, 0x578fdfe3, 0x3ac372e6]

/-- The struct `Cipher`. -/
structure Cipher where
  p : List Nat
  s0 : List Nat
  s1 : List Nat
  s2 : List Nat
  s3 : List Nat
  deriving DecidableEq, Repr

/-- Function `initCipher`: the tables of `const.go`. -/
def initCipher : Cipher := { p := p, s0 := s0, s1 := s1, s2 := s2, s3 := s3 }

/-- The round function inlined sixteen times in `encryptBlock`:
`((c.s0[byte(x>>24)] + c.s1[byte(x>>16)]) ^ c.s2[byte(x>>8)]) + c.s3[byte(x)]`. -/
def feistel (c : Cipher) (x : Nat) : Nat :=
  ((((c.s0.getD (x >>> 24 % 256) 0 + c.s1.getD (x >>> 16 % 256) 0) % 2 ^ 32)
      ^^^ c.s2.getD (x >>> 8 % 256) 0) + c.s3.getD (x % 256) 0) % 2 ^ 32

/-- Function `encryptBlock`. -/
def encryptBlock (l r : Nat) (c : Cipher) : Nat × Nat :=
  let xl := l
  let xr := r
  let xl := xl ^^^ c.p.getD 0 0
  let xr := xr ^^^ (feistel c xl ^^^ c.p.getD 1 0)
  let xl := xl ^^^ (feistel c xr ^^^ c.p.getD 2 0)
  let xr := xr ^^^ (feistel c xl ^^^ c.p.getD 3 0)
  let xl := xl ^^^ (feistel c xr ^^^ c.p.getD 4 0)
  let xr := xr ^^^ (feistel c xl ^^^ c.p.getD 5 0)
  let xl := xl ^^^ (feistel c xr ^^^ c.p.getD 6 0)
  let xr := xr ^^^ (feistel c xl ^^^ c.p.getD 7 0)
  let xl := xl ^^^ (feistel c xr ^^^ c.p.getD 8 0)
  let xr := xr ^^^ (feistel c xl ^^^ c.p.getD 9 0)
  let xl := xl ^^^ (feistel c xr ^^^ c.p.getD 10 0)
  let xr := xr ^^^ (feistel c xl ^^^ c.p.getD 11 0)
  let xl := xl ^^^ (feistel c xr ^^^ c.p.getD 12 0)
  let xr := xr ^^^ (feistel c xl ^^^ c.p.getD 13 0)
  let xl := xl ^^^ (feistel c xr ^^^ c.p.getD 14 0)
  let xr := xr ^^^ (feistel c xl ^^^ c.p.getD 15 0)
  let xl := xl ^^^ (feistel c xr ^^^ c.p.getD 16 0)
  let xr := xr ^^^ c.p.getD 17 0
  (xr, xl)

/-- Function `getNextWord`: four bytes of `b` from position `pos`, cyclically;
the result is the word and the new position.  Go panics on an empty `b`. -/
def getNextWord (b : GoString) (pos : Nat) : Nat × Nat :=
  let step := fun (wj : Nat × Nat) (_ : Nat) =>
    let w := (wj.1 <<< 8 ||| (b.getD wj.2 0).toNat) % 2 ^ 32
    let j := wj.2 + 1
    (w, if j ≥ b.length then 0 else j)
  [0, 1, 2, 3].foldl step (0, pos)

/-- The first loop of `ExpandKey` and of `expandKeyWithSalt`, over the entries
of `c.p` in turn: `c.p[i] ^= getNextWord(key, &j)`. -/
def xorKey (key : GoString) : Nat → List Nat → List Nat
  | _, [] => []
  | j, x :: ps =>
    let wj := getNextWord key j
    (x ^^^ wj.1) :: xorKey key wj.2 ps

/-- The registers carried through the filling loops of the key schedule. -/
structure Regs where
  c : Cipher
  l : Nat
  r : Nat
  j : Nat

/-- The tables of a cipher, numbered: 0 is `p`, 1 to 4 are `s0` to `s3`. -/
def setPair (c : Cipher) (table i l r : Nat) : Cipher :=
  match table with
  | 0 => { c with p := (c.p.set i l).set (i + 1) r }
  | 1 => { c with s0 := (c.s0.set i l).set (i + 1) r }
  | 2 => { c with s1 := (c.s1.set i l).set (i + 1) r }
  | 3 => { c with s2 := (c.s2.set i l).set (i + 1) r }
  | _ => { c with s3 := (c.s3.set i l).set (i + 1) r }

/-- One filling loop, `for i := i; i < i + 2 * n; i += 2`, over one table.
With a salt (`expandKeyWithSalt`) the two registers are first combined with
the next two words of the salt; without (`ExpandKey`) they are not. -/
def fill (salt : Option GoString) (table : Nat) : Nat → Nat → Regs → Regs
  | 0, _, st => st
  | n + 1, i, st =>
    let (l, r, j) :=
      match salt with
      | none => (st.l, st.r, st.j)
      | some s =>
        let w1 := getNextWord s st.j
        let w2 := getNextWord s w1.2
        (st.l ^^^ w1.1, st.r ^^^ w2.1, w2.2)
    let lr := encryptBlock l r st.c
    fill salt table n (i + 2) { c := setPair st.c table i lr.1 lr.2, l := lr.1, r := lr.2, j := j }

/-- The five filling loops, over `p`, `s0`, `s1`, `s2` and `s3`. -/
def fillAll (salt : Option GoString) (c : Cipher) : Cipher :=
  let st : Regs := { c := c, l := 0, r := 0, j := 0 }
  let st := fill salt 0 9 0 st
  let st := fill salt 1 128 0 st
  let st := fill salt 2 128 0 st
  let st := fill salt 3 128 0 st
  let st := fill salt 4 128 0 st
  st.c

/-- Function `ExpandKey`, for a non-empty key (Go panics on an empty one). -/
def ExpandKey (key : GoString) (c : Cipher) : Cipher :=
  fillAll none { c with p := xorKey key 0 c.p }

/-- Function `expandKeyWithSalt`, for a non-empty key and salt. -/
def expandKeyWithSalt (key salt : GoString) (c : Cipher) : Cipher :=
  fillAll (some salt) { c with p := xorKey key 0 c.p }

/-- Function `NewCipher`. -/
def NewCipher (key : GoString) : Except GoError Cipher :=
  if key.length < 1 ∨ key.length > 56 then .error (.KeySizeError key.length)
  else .ok (ExpandKey key initCipher)

/-- Function `NewSaltedCipher`. -/
def NewSaltedCipher (key salt : GoString) : Except GoError Cipher :=
  if salt.length = 0 then NewCipher key
  else if key.length < 1 then .error (.KeySizeError key.length)
  else .ok (expandKeyWithSalt key salt initCipher)

/-- The four bytes of a word, most significant first. -/
def wordBytes (w : Nat) : GoString :=
  [(w >>> 24).toUInt8, (w >>> 16).toUInt8, (w >>> 8).toUInt8, w.toUInt8]

/-- The big-endian word of the four bytes of `src` from index `i`. -/
def bytesWord (src : GoString) (i : Nat) : Nat :=
  (src.getD i 0).toNat <<< 24 ||| (src.getD (i + 1) 0).toNat <<< 16 |||
    (src.getD (i + 2) 0).toNat <<< 8 ||| (src.getD (i + 3) 0).toNat

/-- Method `Cipher.Encrypt`: the eight bytes written to `dst`, from the block
`src[0..7]`. -/
def Encrypt (c : Cipher) (src : GoString) : GoString :=
  let lr := encryptBlock (bytesWord src 0) (bytesWord src 4) c
  wordBytes lr.1 ++ wordBytes lr.2

end blowfish

set_option linter.dupNamespace false

/-! ## `encoding/base64`, with the alphabet of bcrypt -/

namespace base64

/-- Constant `alphabet` of `bcrypt/base64.go`. -/
def alphabet : GoString :=
  str "./ABCDEFGHIJKLMNOPQRSTUVWXYZabcdefghijklmnopqrstuvwxyz0123456789"

/-- The table `enc.encode`: the character of a 6-bit value. -/
def encodeChar (v : Nat) : UInt8 := alphabet.getD (v % 64) 0

/-- The table `enc.decodeMap`: the 6-bit value of a character of the alphabet,
`0xff` for any other byte. -/
def decodeMap (c : UInt8) : UInt8 :=
  if alphabet.indexOf c < 64 then (alphabet.indexOf c).toUInt8 else 0xff

/-- Method `Encoding.Encode` with padding character `'='`. -/
def Encode : GoString → GoString
  | a :: b :: c :: rest =>
    let val := a.toNat <<< 16 ||| b.toNat <<< 8 ||| c.toNat
    encodeChar (val >>> 18 &&& 0x3F) :: encodeChar (val >>> 12 &&& 0x3F) ::
      encodeChar (val >>> 6 &&& 0x3F) :: encodeChar (val &&& 0x3F) :: Encode rest
  | [a, b] =>
    let val := a.toNat <<< 16 ||| b.toNat <<< 8
    [encodeChar (val >>> 18 &&& 0x3F), encodeChar (val >>> 12 &&& 0x3F),
      encodeChar (val >>> 6 &&& 0x3F), ch '=']
  | [a] =>
    let val := a.toNat <<< 16
    [encodeChar (val >>> 18 &&& 0x3F), encodeChar (val >>> 12 &&& 0x3F), ch '=', ch '=']
  | [] => []

/-- The bytes of one quantum: `val` assembled from the sextets in `dbuf`
(missing ones are zero), of which `dlen - 1` bytes are kept. -/
def quantumBytes (dbuf : List Nat) : GoString :=
  let val := dbuf.getD 0 0 <<< 18 ||| dbuf.getD 1 0 <<< 12 ||| dbuf.getD 2 0 <<< 6 ||| dbuf.getD 3 0
  [(val >>> 16).toUInt8, (val >>> 8).toUInt8, val.toUInt8].take (dbuf.length - 1)

/-- Whether a byte is skipped by the decoder: `'\n'` or `'\r'`. -/
def isNewline (c : UInt8) : Bool := c = 10 ∨ c = 13

/-- The end of `decodeQuantum` once the padding character at index `si - 1`
was read with `dbuf` holding the sextets of the quantum; `rest` is the input
from index `si`, `srcLen` the length of the whole input. -/
def decodePadding (srcLen : Nat) (rest : GoString) (si : Nat) (dbuf : List Nat) :
    Except GoError GoString :=
  let trailing := fun (rest : GoString) (si : Nat) =>
    -- skip over newlines; anything left is trailing garbage
    let skipped := rest.takeWhile isNewline
    if (rest.dropWhile isNewline).length > 0 then
      Except.error (GoError.CorruptInputError ((si + skipped.length : Nat) : Int))
    else Except.ok (quantumBytes dbuf)
  match dbuf.length with
  | 0 => .error (.CorruptInputError ((si : Int) - 1))
  | 1 => .error (.CorruptInputError ((si : Int) - 1))
  | 2 =>
    -- "==" is expected, the first "=" is already consumed
    let skipped := rest.takeWhile isNewline
    let si := si + skipped.length
    match rest.dropWhile isNewline with
    | [] => .error (.CorruptInputError srcLen)
    | c :: rest =>
      if c ≠ ch '=' then .error (.CorruptInputError ((si : Int) - 1))
      else trailing rest (si + 1)
  | _ => trailing rest si

/-- Method `Encoding.Decode` (not strict, padding `'='`): the quanta of
`decodeQuantum` one after the other.  `si` is the index of the next byte and
`dbuf` the sextets read so far in the current quantum. -/
def decodeLoop (srcLen : Nat) : GoString → Nat → List Nat → Except GoError GoString
  | [], si, dbuf =>
    if dbuf.length = 0 then .ok []
    else .error (.CorruptInputError ((si : Int) - dbuf.length))
  | c :: rest, si, dbuf =>
    if decodeMap c ≠ 0xff then
      let dbuf := dbuf ++ [(decodeMap c).toNat]
      if dbuf.length = 4 then
        match decodeLoop srcLen rest (si + 1) [] with
        | .error e => .error e
        | .ok out => .ok (quantumBytes dbuf ++ out)
      else decodeLoop srcLen rest (si + 1) dbuf
    else if c = 10 ∨ c = 13 then decodeLoop srcLen rest (si + 1) dbuf
    else if c ≠ ch '=' then .error (.CorruptInputError si)
    else decodePadding srcLen rest (si + 1) dbuf

/-- Method `Encoding.Decode`. -/
def Decode (src : GoString) : Except GoError GoString :=
  decodeLoop src.length src 0 []

end base64

/-! ## `golang.org/x/crypto/bcrypt`

The package that `main.go` imports; its code is not among the sources of the
program.  The token format, the parser and the digest follow the package.  The
operation that makes a hash, `GenerateFromPassword` with `newFromPassword`, is
modelled from the spec (operation Hash), and what it takes from outside is the
record `Env`. -/

/-- What the hashing operation of the bcrypt package takes from outside. -/
structure Env where
  /-- The cost that `newFromPassword` goes on with when it is given a cost below
  `MinCost`, before the cost is checked.  The spec has every cost outside the
  range rejected: the cost is kept (`id`) and `checkCost` refuses it.  The
  package documents that such a cost is set to `DefaultCost`
  (`fun _ => DefaultCost`). -/
  lowCost : Int → Int
  /-- The result of `io.ReadFull(rand.Reader, unencodedSalt)`: the error of the
  read, or the bytes read, `rnd i` being the `i`-th. -/
  rand : Except GoError (Nat → UInt8)

namespace bcrypt

/-- Constant `MinCost`. -/
def MinCost : Int := 4

/-- Constant `MaxCost`. -/
def MaxCost : Int := 31

/-- Constant `DefaultCost`. -/
def DefaultCost : Int := 10

/-- Constant `majorVersion`. -/
def majorVersion : UInt8 := ch '2'

/-- Constant `minorVersion`. -/
def minorVersion : UInt8 := ch 'a'

/-- Constant `maxSaltSize`. -/
def maxSaltSize : Nat := 16

/-- Constant `maxCryptedHashSize`. -/
def maxCryptedHashSize : Nat := 23

/-- Constant `encodedSaltSize`. -/
def encodedSaltSize : Nat := 22

/-- Constant `encodedHashSize`. -/
def encodedHashSize : Nat := 31

/-- Constant `minHashSize`. -/
def minHashSize : Nat := 59

/-- Variable `magicCipherData`: the text `OrpheanBeholderScryDoubt`. -/
def magicCipherData : GoString := str "OrpheanBeholderScryDoubt"

/-- The struct `hashed`. -/
structure hashed where
  hash : GoString
  salt : GoString
  cost : Int
  major : UInt8
  minor : UInt8
  deriving DecidableEq, Repr

/-- The loop `for dst[n-1] == '=' { n-- }` of `base64Encode`. -/
def stripPadding (dst : GoString) : GoString :=
  (dst.reverse.dropWhile (fun c => c = ch '=')).reverse

/-- Function `base64Encode` of `bcrypt/base64.go`, for a non-empty `src`. -/
def base64Encode (src : GoString) : GoString :=
  stripPadding (base64.Encode src)

/-- Function `base64Decode` of `bcrypt/base64.go`. -/
def base64Decode (src : GoString) : Except GoError GoString :=
  let numOfEquals := 4 - (src.length % 4)
  base64.Decode (src ++ List.replicate numOfEquals (ch '='))

/-- Function `checkCost`. -/
def checkCost (cost : Int) : Option GoError :=
  if cost < MinCost ∨ cost > MaxCost then some (.InvalidCostError cost) else none

/-- The text of `fmt.Sprintf("%02d", n)`. -/
def sprintf02d (n : Int) : GoString :=
  let digits := (Nat.toDigits 10 n.natAbs).map ch
  if n < 0 then ch '-' :: digits
  else List.replicate (2 - digits.length) (ch '0') ++ digits

/-- Go `copy(dst[n:], src)`: `src` written over `dst` from index `n`, as far as
`dst` reaches. -/
def copyAt (dst : GoString) (n : Nat) (src : GoString) : GoString :=
  dst.take n ++ (src.take (dst.length - n)) ++ dst.drop (n + src.length)

/-- Method `hashed.Hash`: the encoded token. -/
def hashed.Hash (p : hashed) : GoString :=
  let arr := List.replicate 60 (0 : UInt8)
  let arr := arr.set 0 (ch '$')
  let arr := arr.set 1 p.major
  let n := 2
  let arr := if p.minor ≠ 0 then arr.set 2 p.minor else arr
  let n := if p.minor ≠ 0 then 3 else n
  let arr := arr.set n (ch '$')
  let n := n + 1
  let arr := copyAt arr n (sprintf02d p.cost)
  let n := n + 2
  let arr := arr.set n (ch '$')
  let n := n + 1
  let arr := copyAt arr n p.salt
  let n := n + encodedSaltSize
  let arr := copyAt arr n p.hash
  let n := n + encodedHashSize
  arr.take n

/-- Method `hashed.decodeVersion`, on a secret of at least `minHashSize` bytes:
the major and minor version and the number of bytes read. -/
def decodeVersion (sbytes : GoString) : Except GoError (UInt8 × UInt8 × Nat) :=
  if sbytes.getD 0 0 ≠ ch '$' then .error (.InvalidHashPrefixError (sbytes.getD 0 0))
  else if sbytes.getD 1 0 > majorVersion then .error (.HashVersionTooNewError (sbytes.getD 1 0))
  else if sbytes.getD 2 0 ≠ ch '$' then .ok (sbytes.getD 1 0, sbytes.getD 2 0, 4)
  else .ok (sbytes.getD 1 0, 0, 3)

/-- Method `hashed.decodeCost`: the cost; three bytes are read. -/
def decodeCost (sbytes : GoString) : Except GoError Int :=
  match Atoi (sbytes.take 2) with
  | (_, some err) => .error err
  | (cost, none) =>
    match checkCost cost with
    | some err => .error err
    | none => .ok cost

/-- Function `newFromHash`. -/
def newFromHash (hashedSecret : GoString) : Except GoError hashed :=
  if hashedSecret.length < minHashSize then .error .ErrHashTooShort
  else
    match decodeVersion hashedSecret with
    | .error err => .error err
    | .ok (major, minor, n) =>
      let hashedSecret := hashedSecret.drop n
      match decodeCost hashedSecret with
      | .error err => .error err
      | .ok cost =>
        let hashedSecret := hashedSecret.drop 3
        .ok { major := major, minor := minor, cost := cost,
              salt := hashedSecret.take encodedSaltSize,
              hash := hashedSecret.drop encodedSaltSize }

/-- The loop of `expensiveBlowfishSetup`: `rounds` times `ExpandKey(ckey, c)`
then `ExpandKey(csalt, c)`. -/
def expandRounds (ckey csalt : GoString) : Nat → blowfish.Cipher → blowfish.Cipher
  | 0, c => c
  | n + 1, c => expandRounds ckey csalt n (blowfish.ExpandKey csalt (blowfish.ExpandKey ckey c))

/-- Function `expensiveBlowfishSetup`; `cost` is the `uint32` it is given. -/
def expensiveBlowfishSetup (key : GoString) (cost : Nat) (salt : GoString) :
    Go (Except GoError blowfish.Cipher) :=
  match base64Decode salt with
  | .error err => .ret (.error err)
  | .ok csalt =>
    -- the trailing NUL of the C string is part of the key
    let ckey := key ++ [0]
    match blowfish.NewSaltedCipher ckey csalt with
    | .error err => .ret (.error err)
    | .ok c =>
      let rounds := (1 <<< cost) % 2 ^ 64
      if csalt.length = 0 ∧ rounds > 0 then
        -- ExpandKey(csalt, c) reads csalt[0]
        .panic "index out of range [0] with length 0"
      else .ret (.ok (expandRounds ckey csalt rounds c))

/-- The inner loop of `bcrypt`: `c.Encrypt` applied `n` times to one block. -/
def encryptTimes (c : blowfish.Cipher) : Nat → GoString → GoString
  | 0, block => block
  | n + 1, block => encryptTimes c n (blowfish.Encrypt c block)

/-- Function `bcrypt`: the encoded digest of a password under a cost and an
encoded salt. -/
def bcrypt (password : GoString) (cost : Int) (salt : GoString) :
    Go (Except GoError GoString) :=
  let cipherData := magicCipherData
  match expensiveBlowfishSetup password (cost % 2 ^ 32).toNat salt with
  | .ret (.ok c) =>
    let cipherData :=
      encryptTimes c 64 (cipherData.take 8) ++
        encryptTimes c 64 ((cipherData.drop 8).take 8) ++
        encryptTimes c 64 ((cipherData.drop 16).take 8)
    -- only 23 of the 24 bytes are encoded
    .ret (.ok (base64Encode (cipherData.take maxCryptedHashSize)))
  | .ret (.error err) => .ret (.error err)
  | .fatal m => .fatal m
  | .panic m => .panic m

/-- Modelled from the spec: function `newFromPassword` of the package
`golang.org/x/crypto/bcrypt`, whose code is not among the sources of the
program; it is the body of the spec's operation Hash.  A cost outside the valid
range, 4 to 31, is rejected (`checkCost`, the spec's `UnsupportedCostError`); a
salt is read from the secure random source, and the error of the read is
returned; the digest is computed from the salt and the password; the version,
the cost, the salt and the digest make the `hashed` that is serialized into one
token.  The spec sets no upper bound on the password, and none is checked.
What is done to a cost below `MinCost` before the check is the parameter
`E.lowCost`: nothing in the spec (`id`), `DefaultCost` in the package. -/
def newFromPassword (E : Env) (password : GoString) (cost : Int) :
    Go (Except GoError hashed) :=
  let cost := if cost < MinCost then E.lowCost cost else cost
  match checkCost cost with
  | some err => .ret (.error err)
  | none =>
    match E.rand with
    | .error err => .ret (.error err)
    | .ok rnd =>
      let unencodedSalt := (List.range maxSaltSize).map rnd
      let salt := base64Encode unencodedSalt
      match bcrypt password cost salt with
      | .ret (.ok hash) =>
        .ret (.ok { major := majorVersion, minor := minorVersion, cost := cost,
                    salt := salt, hash := hash })
      | .ret (.error err) => .ret (.error err)
      | .fatal m => .fatal m
      | .panic m => .panic m

/-- Modelled from the spec: function `GenerateFromPassword` of the package
`golang.org/x/crypto/bcrypt`, whose code is not among the sources of the
program; it is the spec's operation Hash: the token of `newFromPassword`, or
its error.  The spec sets no upper bound on the password, and none is checked
here. -/
def GenerateFromPassword (E : Env) (password : GoString) (cost : Int) :
    Go (Except GoError GoString) :=
  match newFromPassword E password cost with
  | .ret (.ok p) => .ret (.ok p.Hash)
  | .ret (.error err) => .ret (.error err)
  | .fatal m => .fatal m
  | .panic m => .panic m

/-- Function `CompareHashAndPassword`; `subtle.ConstantTimeCompare` is
equality of the two byte slices. -/
def CompareHashAndPassword (hashedPassword password : GoString) : Go (Option GoError) :=
  match newFromHash hashedPassword with
  | .error err => .ret (some err)
  | .ok p =>
    match bcrypt password p.cost p.salt with
    | .ret (.ok otherHash) =>
      let otherP : hashed :=
        { hash := otherHash, salt := p.salt, cost := p.cost, major := p.major, minor := p.minor }
      if p.Hash = otherP.Hash then .ret none
      else .ret (some .ErrMismatchedHashAndPassword)
    | .ret (.error err) => .ret (some err)
    | .fatal m => .fatal m
    | .panic m => .panic m

/-- Function `Cost`. -/
def Cost (hashedPassword : GoString) : Except GoError Int :=
  match newFromHash hashedPassword with
  | .error err => .error err
  | .ok p => .ok p.cost

end bcrypt

/-! ## `main.go`: the argument record and `validateArgs` -/

/-- Constant `defaultBcryptCost` of `main.go`. -/
def defaultBcryptCost : Int := 4

/-- The struct `args` of `main.go`; the defaults are Go's zero values. -/
structure args where
  cmd : GoString := []
  pword : GoString := []
  hash : GoString := []
  outcome : Bool := false
  cost : Int := 0
  deriving DecidableEq, Repr

/-- Function `validateArgs` of `main.go`. -/
def validateArgs (U : GoString → GoString) (input : List GoString) :
    Go (args × Option GoError) :=
  let a : args := {}
  if input.length < 3 then
    .ret (a, some (.errorsNew "at least 2 parameters required"))
  else do
    let x1 ← index input 1
    let a := { a with cmd := ToLower U x1 }
    if a.cmd = str "hash" then do
      let x2 ← index input 2
      let a := { a with pword := x2 }
      if a.pword.length < 4 then
        .ret (a, some (.errorsNew "'password' must be at least 4 characters long"))
      else if input.length = 4 then do
        let x3 ← index input 3
        match Atoi x3 with
        | (n, some err) => .ret ({ a with cost := n }, some err)
        | (n, none) => .ret ({ a with cost := n }, none)
      else
        .ret ({ a with cost := defaultBcryptCost }, none)
    else if a.cmd = str "match" then do
      let x2 ← index input 2
      let a := { a with pword := x2 }
      if input.length < 4 then
        .ret (a, some (.errorsNew "'match' requires a 'password' and 'hash'"))
      else do
        let x3 ← index input 3
        .ret ({ a with hash := x3 }, none)
    else if a.cmd = str "cost" then do
      let x2 ← index input 2
      .ret ({ a with hash := x2 }, none)
    else
      .ret (a, some (.errorsNew "parameter 1 must be 'hash', 'match' or 'cost'"))

/-! ## `main.go`: `hash`, `compare`, `cost` and `main` -/

/-- Function `hash` of `main.go`; `E` is what the bcrypt package takes from
outside. -/
def hash (E : Env) (password : GoString) (cost : Int) :
    Go (GoString × Option GoError) :=
  match bcrypt.GenerateFromPassword E password cost with
  | .ret (.error err) =>
    .ret ([], some (.wrapped "could not generate bcrypt password hash: " err))
  | .ret (.ok pwHash) => .ret (pwHash, none)
  | .fatal m => .fatal m
  | .panic m => .panic m

/-- Function `compare` of `main.go`. -/
def compare (hashedPassword password : GoString) : Go (Option GoError) :=
  bcrypt.CompareHashAndPassword hashedPassword password

/-- Function `cost` of `main.go`. -/
def cost (hashedPassword : GoString) : Go Int :=
  match bcrypt.Cost hashedPassword with
  | .error err => .fatal (.err err)
  | .ok costValue => .ret costValue

/-- One write of `main` to standard output. -/
inductive Out where
  /-- The call `fmt.Println(helpText)`. -/
  | help
  /-- The call `fmt.Printf("outcome=%v password=%s, hash=%s\n", ...)`. -/
  | hashLine (outcome : Bool) (pword hash : GoString)
  /-- The call `fmt.Printf("outcome=%v hash=%s cost=%d\n", ...)`. -/
  | costLine (outcome : Bool) (hash : GoString) (cost : Int)
  deriving DecidableEq, Repr

/-- A run of the program: what it printed and how it ended. -/
structure Run where
  stdout : List Out
  status : Go Unit
  deriving DecidableEq, Repr

/-- The run in which a call did not give `main` a result to go on with: after
`stdout` was printed, the process ended as the call did. -/
def Run.stop {α : Type} (stdout : List Out) : Go α → Run
  | .ret _ => { stdout := stdout, status := .ret () }
  | .fatal m => { stdout := stdout, status := .fatal m }
  | .panic m => { stdout := stdout, status := .panic m }

/-- Function `main` of `main.go`, on the argument list `os.Args`. -/
def main (U : GoString → GoString) (E : Env) (osArgs : List GoString) : Run :=
  match validateArgs U osArgs with
  | .ret (_, some err) => { stdout := [.help], status := .fatal (.err err) }
  | .ret (a, none) =>
    if a.cmd = str "hash" then
      match hash E a.pword a.cost with
      | .ret (_, some err) => { stdout := [], status := .fatal (.err err) }
      | .ret (h, none) =>
        let a := { a with hash := h }
        match compare a.hash a.pword with
        | .ret (some err) => { stdout := [], status := .fatal (.err err) }
        | .ret none =>
          let a := { a with outcome := true }
          { stdout := [.hashLine a.outcome a.pword a.hash], status := .ret () }
        | r => Run.stop [] r
      | r => Run.stop [] r
    else if a.cmd = str "match" then
      match compare a.hash a.pword with
      | .ret (some err) => { stdout := [], status := .fatal (.err err) }
      | .ret none =>
        let a := { a with outcome := true }
        { stdout := [.hashLine a.outcome a.pword a.hash], status := .ret () }
      | r => Run.stop [] r
    else if a.cmd = str "cost" then
      match cost a.hash with
      | .ret hashCost =>
        let a := { a with outcome := true }
        { stdout := [.costLine a.outcome a.hash hashCost], status := .ret () }
      | r => Run.stop [] r
    else
      { stdout := [], status := .fatal (.text "cmd must be 'hash', 'match' or 'cost'") }
  | r => Run.stop [] r

/-! ## Auxiliary definitions of the proofs -/

deriving instance DecidableEq for Except

/-- A string made of characters of the bcrypt alphabet only. -/
def IsAlpha (s : GoString) : Prop := ∀ c ∈ s, c ≠ ch '=' ∧ base64.decodeMap c ≠ 0xff

/-- The token of the password `pass1234` at cost 4 under the all-zero salt. -/
def sampleToken : GoString :=
  str "$2a$04$......................p2IQg27sMRKH6li2iSG.juJCQ2NO7BK"

/-- The token `sampleToken` with its last character changed from `K` to `L`. -/
def alteredToken : GoString :=
  str "$2a$04$......................p2IQg27sMRKH6li2iSG.juJCQ2NO7BL"

/-- The hashing operation as the bcrypt package documents it for
`GenerateFromPassword` (a cost below `MinCost` is set to `DefaultCost`), in a
run in which the read of the random source gives sixteen zero bytes. -/
def packageEnv : Env :=
  { lowCost := fun _ => bcrypt.DefaultCost, rand := .ok (fun _ => 0) }

/-- A password does not match a well-formed token: the token parses, the digest
of the password under the salt and the cost of the token is computed, and the
token encoded with that digest is not the token encoded with its own. -/
def Mismatches (T pw : GoString) : Prop :=
  ∃ p d, bcrypt.newFromHash T = .ok p ∧ bcrypt.bcrypt pw p.cost p.salt = .ret (.ok d) ∧
    p.Hash ≠ (⟨d, p.salt, p.cost, p.major, p.minor⟩ : bcrypt.hashed).Hash

/-- An ASCII decimal digit. -/
def isDigit (c : UInt8) : Prop := ch '0' ≤ c ∧ c ≤ ch '9'

instance (c : UInt8) : Decidable (isDigit c) := by
  unfold isDigit
  infer_instance

/-- The number that a string of decimal digits denotes. -/
def decimalValue (s : GoString) : Nat :=
  s.foldl (fun n c => n * 10 + (c - ch '0').toNat) 0

/-- A decimal integer in its plain notation: one digit or more, no sign. -/
def IsDecimal (s : GoString) : Prop := s ≠ [] ∧ ∀ c ∈ s, isDigit c

/-! ## Lemmas on the Go outcome type -/

@[simp] theorem Go.ret_bind {α β : Type} (a : α) (f : α → Go β) :
    (Go.ret a >>= f) = f a := rfl

@[simp] theorem Go.fatal_bind {α β : Type} (m : LogMsg) (f : α → Go β) :
    (Go.fatal m >>= f) = Go.fatal m := rfl

@[simp] theorem Go.panic_bind {α β : Type} (m : String) (f : α → Go β) :
    (Go.panic m >>= f) = Go.panic m := rfl

@[simp] theorem index_zero {α : Type} (x : α) (xs : List α) : index (x :: xs) 0 = .ret x := by
  simp [index]

@[simp] theorem index_succ {α : Type} (x : α) (xs : List α) (i : Nat) :
    index (x :: xs) (i + 1) = index xs i := by
  simp [index]

theorem str_hash_ne_match : str "hash" ≠ str "match" := by decide

theorem str_hash_ne_cost : str "hash" ≠ str "cost" := by decide

theorem str_match_ne_cost : str "match" ≠ str "cost" := by decide

/-! ## `validateArgs`, branch by branch -/

/-- Fewer than three elements: the first guard of `validateArgs`. -/
theorem validateArgs_short (U : GoString → GoString) (input : List GoString)
    (h : input.length < 3) :
    validateArgs U input = .ret ({}, some (.errorsNew "at least 2 parameters required")) := by
  simp [validateArgs, h]

/-- The branch `case "hash"` of `validateArgs`. -/
theorem validateArgs_hash (U : GoString → GoString) (x0 x1 x2 : GoString) (rest : List GoString)
    (hcmd : ToLower U x1 = str "hash") :
    validateArgs U (x0 :: x1 :: x2 :: rest) =
      if x2.length < 4 then
        .ret ({ cmd := str "hash", pword := x2 },
          some (.errorsNew "'password' must be at least 4 characters long"))
      else
        match rest with
        | [x3] =>
          .ret ({ cmd := str "hash", pword := x2, cost := (Atoi x3).1 }, (Atoi x3).2)
        | _ => .ret ({ cmd := str "hash", pword := x2, cost := defaultBcryptCost }, none) := by
  rcases rest with _ | ⟨x3, _ | ⟨x4, r⟩⟩
  · simp [validateArgs, hcmd]
  · simp only [validateArgs, List.length_cons, List.length_nil, index_succ, index_zero,
      Go.ret_bind, hcmd]
    by_cases h : x2.length < 4
    · simp [h]
    · simp only [h, if_false]
      rcases hA : Atoi x3 with ⟨n, _ | e⟩ <;> simp
  · simp [validateArgs, hcmd]

/-- The branch `case "match"` of `validateArgs`. -/
theorem validateArgs_match (U : GoString → GoString) (x0 x1 x2 : GoString)
    (rest : List GoString) (hcmd : ToLower U x1 = str "match") :
    validateArgs U (x0 :: x1 :: x2 :: rest) =
      match rest with
      | [] =>
        .ret ({ cmd := str "match", pword := x2 },
          some (.errorsNew "'match' requires a 'password' and 'hash'"))
      | x3 :: _ => .ret ({ cmd := str "match", pword := x2, hash := x3 }, none) := by
  have h := Ne.symm str_hash_ne_match
  rcases rest with _ | ⟨x3, r⟩
  · simp [validateArgs, hcmd, h]
  · have h3 : ¬ (r.length + 1 + 1 + 1 + 1 < 3) := by omega
    have h4 : ¬ (r.length + 1 + 1 + 1 + 1 < 4) := by omega
    simp [validateArgs, hcmd, h, h3, h4]

/-- The branch `case "cost"` of `validateArgs`. -/
theorem validateArgs_cost (U : GoString → GoString) (x0 x1 x2 : GoString)
    (rest : List GoString) (hcmd : ToLower U x1 = str "cost") :
    validateArgs U (x0 :: x1 :: x2 :: rest) = .ret ({ cmd := str "cost", hash := x2 }, none) := by
  have h1 := Ne.symm str_hash_ne_cost
  have h2 := Ne.symm str_match_ne_cost
  simp [validateArgs, hcmd, h1, h2]

/-- The branch `default` of `validateArgs`. -/
theorem validateArgs_other (U : GoString → GoString) (x0 x1 x2 : GoString)
    (rest : List GoString) (h1 : ToLower U x1 ≠ str "hash") (h2 : ToLower U x1 ≠ str "match")
    (h3 : ToLower U x1 ≠ str "cost") :
    validateArgs U (x0 :: x1 :: x2 :: rest) =
      .ret ({ cmd := ToLower U x1 },
        some (.errorsNew "parameter 1 must be 'hash', 'match' or 'cost'")) := by
  simp [validateArgs, h1, h2, h3]

/-- Every call of `validateArgs` returns. -/
theorem validateArgs_ret (U : GoString → GoString) (input : List GoString) :
    ∃ a err, validateArgs U input = .ret (a, err) := by
  rcases input with _ | ⟨x0, _ | ⟨x1, _ | ⟨x2, rest⟩⟩⟩
  · exact ⟨_, _, validateArgs_short U _ (by simp)⟩
  · exact ⟨_, _, validateArgs_short U _ (by simp)⟩
  · exact ⟨_, _, validateArgs_short U _ (by simp)⟩
  · by_cases h1 : ToLower U x1 = str "hash"
    · rw [validateArgs_hash U x0 x1 x2 rest h1]
      split_ifs
      · exact ⟨_, _, rfl⟩
      · split <;> exact ⟨_, _, rfl⟩
    · by_cases h2 : ToLower U x1 = str "match"
      · rw [validateArgs_match U x0 x1 x2 rest h2]
        split <;> exact ⟨_, _, rfl⟩
      · by_cases h3 : ToLower U x1 = str "cost"
        · exact ⟨_, _, validateArgs_cost U x0 x1 x2 rest h3⟩
        · exact ⟨_, _, validateArgs_other U x0 x1 x2 rest h1 h2 h3⟩

/-- What a successful `validateArgs` says of its input and of the command. -/
theorem validateArgs_ok (U : GoString → GoString) (input : List GoString) (a : args)
    (h : validateArgs U input = .ret (a, none)) :
    ∃ x0 x1 x2 rest, input = x0 :: x1 :: x2 :: rest ∧ a.cmd = ToLower U x1 ∧
      (a.cmd = str "hash" ∨ a.cmd = str "match" ∨ a.cmd = str "cost") := by
  rcases input with _ | ⟨x0, _ | ⟨x1, _ | ⟨x2, rest⟩⟩⟩
  · rw [validateArgs_short U _ (by simp)] at h; simp at h
  · rw [validateArgs_short U _ (by simp)] at h; simp at h
  · rw [validateArgs_short U _ (by simp)] at h; simp at h
  · refine ⟨x0, x1, x2, rest, rfl, ?_⟩
    by_cases h1 : ToLower U x1 = str "hash"
    · rw [validateArgs_hash U x0 x1 x2 rest h1] at h
      split_ifs at h
      · simp at h
      · split at h <;> simp only [Go.ret.injEq, Prod.mk.injEq] at h <;>
          (obtain ⟨ha, -⟩ := h; subst ha; simp [h1])
    · by_cases h2 : ToLower U x1 = str "match"
      · rw [validateArgs_match U x0 x1 x2 rest h2] at h
        split at h
        · simp at h
        · simp only [Go.ret.injEq, Prod.mk.injEq] at h
          obtain ⟨ha, -⟩ := h; subst ha; simp [h2]
      · by_cases h3 : ToLower U x1 = str "cost"
        · rw [validateArgs_cost U x0 x1 x2 rest h3] at h
          simp only [Go.ret.injEq, Prod.mk.injEq] at h
          obtain ⟨ha, -⟩ := h; subst ha; simp [h3]
        · rw [validateArgs_other U x0 x1 x2 rest h1 h2 h3] at h
          simp at h

/-! ## Lemmas on the base64 alphabet -/

theorem alphabet_getD_facts :
    ∀ i, i < 64 → base64.alphabet.getD i 0 ≠ ch '=' ∧
      base64.decodeMap (base64.alphabet.getD i 0) ≠ 0xff := by
  decide

theorem encodeChar_ne_pad (v : Nat) : base64.encodeChar v ≠ ch '=' :=
  (alphabet_getD_facts (v % 64) (Nat.mod_lt _ (by norm_num))).1

theorem decodeMap_encodeChar (v : Nat) : base64.decodeMap (base64.encodeChar v) ≠ 0xff :=
  (alphabet_getD_facts (v % 64) (Nat.mod_lt _ (by norm_num))).2

/-- The shape of `Encode`: characters of the alphabet, then the padding. -/
theorem Encode_shape (l : GoString) :
    ∃ body, IsAlpha body ∧ body.length = (4 * l.length + 2) / 3 ∧
      base64.Encode l = body ++ List.replicate ((3 - l.length % 3) % 3) (ch '=') := by
  induction l using base64.Encode.induct with
  | case1 a b c rest ih =>
    obtain ⟨body, hal, hlen, heq⟩ := ih
    refine ⟨base64.encodeChar ((a.toNat <<< 16 ||| b.toNat <<< 8 ||| c.toNat) >>> 18 &&& 0x3F) ::
      base64.encodeChar ((a.toNat <<< 16 ||| b.toNat <<< 8 ||| c.toNat) >>> 12 &&& 0x3F) ::
      base64.encodeChar ((a.toNat <<< 16 ||| b.toNat <<< 8 ||| c.toNat) >>> 6 &&& 0x3F) ::
      base64.encodeChar ((a.toNat <<< 16 ||| b.toNat <<< 8 ||| c.toNat) &&& 0x3F) :: body,
      ?_, ?_, ?_⟩
    · intro x hx
      simp only [List.mem_cons] at hx
      rcases hx with rfl | rfl | rfl | rfl | hx
      · exact ⟨encodeChar_ne_pad _, decodeMap_encodeChar _⟩
      · exact ⟨encodeChar_ne_pad _, decodeMap_encodeChar _⟩
      · exact ⟨encodeChar_ne_pad _, decodeMap_encodeChar _⟩
      · exact ⟨encodeChar_ne_pad _, decodeMap_encodeChar _⟩
      · exact hal x hx
    · simp only [List.length_cons, hlen]; omega
    · simp only [base64.Encode, heq, List.length_cons, List.cons_append]
      have : (3 - (rest.length + 1 + 1 + 1) % 3) % 3 = (3 - rest.length % 3) % 3 := by omega
      rw [this]
  | case2 a b =>
    refine ⟨[base64.encodeChar ((a.toNat <<< 16 ||| b.toNat <<< 8) >>> 18 &&& 0x3F),
      base64.encodeChar ((a.toNat <<< 16 ||| b.toNat <<< 8) >>> 12 &&& 0x3F),
      base64.encodeChar ((a.toNat <<< 16 ||| b.toNat <<< 8) >>> 6 &&& 0x3F)], ?_, by simp, rfl⟩
    intro x hx
    simp only [List.mem_cons, List.mem_singleton, List.not_mem_nil, or_false] at hx
    rcases hx with rfl | rfl | rfl <;> exact ⟨encodeChar_ne_pad _, decodeMap_encodeChar _⟩
  | case3 a =>
    refine ⟨[base64.encodeChar ((a.toNat <<< 16) >>> 18 &&& 0x3F),
      base64.encodeChar ((a.toNat <<< 16) >>> 12 &&& 0x3F)], ?_, by simp, rfl⟩
    intro x hx
    simp only [List.mem_cons, List.mem_singleton, List.not_mem_nil, or_false] at hx
    rcases hx with rfl | rfl <;> exact ⟨encodeChar_ne_pad _, decodeMap_encodeChar _⟩
  | case4 => exact ⟨[], by simp [IsAlpha], rfl, rfl⟩

theorem dropWhile_pad_replicate (k : Nat) (r : GoString) :
    (List.replicate k (ch '=') ++ r).dropWhile (fun c => c = ch '=') =
      r.dropWhile (fun c => c = ch '=') := by
  induction k with
  | zero => simp
  | succ k ih => simp [List.replicate_succ, ih]

theorem dropWhile_pad_of_alpha (r : GoString) (h : IsAlpha r) :
    r.dropWhile (fun c => c = ch '=') = r := by
  rcases r with _ | ⟨x, r⟩
  · rfl
  · have := (h x (by simp)).1
    simp [this]

/-- The token `base64Encode` makes: characters of the alphabet, four for every
three bytes. -/
theorem base64Encode_shape (l : GoString) :
    IsAlpha (bcrypt.base64Encode l) ∧ (bcrypt.base64Encode l).length = (4 * l.length + 2) / 3 := by
  obtain ⟨body, hal, hlen, heq⟩ := Encode_shape l
  have hrev : IsAlpha body.reverse := fun c hc => hal c (by simpa using hc)
  have : bcrypt.base64Encode l = body := by
    simp only [bcrypt.base64Encode, bcrypt.stripPadding, heq, List.reverse_append,
      List.reverse_replicate, dropWhile_pad_replicate, dropWhile_pad_of_alpha _ hrev,
      List.reverse_reverse]
  rw [this]
  exact ⟨hal, hlen⟩

/-! ## Decoding a salt -/

theorem decodeMap_pad : base64.decodeMap (ch '=') = 0xff := by decide

/-- The last quantum of a padded input: two sextets, then `==`. -/
theorem decodeLoop_padding (n si : Nat) (dbuf : List Nat) (h : dbuf.length = 2) :
    ∃ out, base64.decodeLoop n [ch '=', ch '='] si dbuf = .ok out ∧ out ≠ [] := by
  obtain ⟨x, y, rfl⟩ : ∃ x y, dbuf = [x, y] := by
    rcases dbuf with _ | ⟨x, _ | ⟨y, _ | ⟨z, r⟩⟩⟩ <;> simp at h
    exact ⟨x, y, rfl⟩
  refine ⟨base64.quantumBytes [x, y], ?_, ?_⟩
  · have h1 : ¬ (ch '=' = (10 : UInt8) ∨ ch '=' = (13 : UInt8)) := by decide
    have h2 : base64.isNewline (ch '=') = false := by decide
    simp [base64.decodeLoop, decodeMap_pad, h1, base64.decodePadding, h2]
  · simp [base64.quantumBytes]

/-- Decoding succeeds on characters of the alphabet followed by `==` when the
sextets fill whole quanta and leave two. -/
theorem decodeLoop_alpha (n : Nat) (s : GoString) :
    ∀ (si : Nat) (dbuf : List Nat), IsAlpha s → dbuf.length < 4 →
      (dbuf.length + s.length) % 4 = 2 →
      ∃ out, base64.decodeLoop n (s ++ [ch '=', ch '=']) si dbuf = .ok out ∧ out ≠ [] := by
  induction s with
  | nil =>
    intro si dbuf _ h4 hm
    simp only [List.length_nil, Nat.add_zero] at hm
    exact decodeLoop_padding n si dbuf (by omega)
  | cons c s ih =>
    intro si dbuf hal h4 hm
    have hc : base64.decodeMap c ≠ 0xff := (hal c (by simp)).2
    have hal2 : IsAlpha s := fun x hx => hal x (by simp [hx])
    simp only [List.length_cons] at hm
    simp only [List.cons_append, base64.decodeLoop, hc, ne_eq, not_false_eq_true, if_true,
      List.length_append, List.length_singleton]
    by_cases h3 : dbuf.length + 1 = 4
    · obtain ⟨out, ho, hne⟩ := ih (si + 1) [] hal2 (by simp) (by simp; omega)
      have ho2 : base64.decodeLoop n (s.append [ch '=', ch '=']) (si + 1) [] = .ok out := ho
      simp only [h3, if_true, ho2]
      exact ⟨_, rfl, by simp [hne]⟩
    · simp only [h3, if_false]
      exact ih (si + 1) _ hal2 (by simp; omega) (by simp; omega)

/-- The function `base64Decode` succeeds on a salt of 22 characters of the
alphabet, and the decoded salt is not empty. -/
theorem base64Decode_alpha (s : GoString) (hal : IsAlpha s) (hlen : s.length = 22) :
    ∃ out, bcrypt.base64Decode s = .ok out ∧ out ≠ [] := by
  simp only [bcrypt.base64Decode, base64.Decode, hlen]
  exact decodeLoop_alpha _ s 0 [] hal (by simp) (by simp [hlen])

/-! ## The digest -/

theorem Encrypt_length (c : blowfish.Cipher) (src : GoString) :
    (blowfish.Encrypt c src).length = 8 := by
  simp [blowfish.Encrypt, blowfish.wordBytes]

theorem encryptTimes_length (c : blowfish.Cipher) (n : Nat) :
    ∀ block : GoString, block.length = 8 → (bcrypt.encryptTimes c n block).length = 8 := by
  induction n with
  | zero => intro block h; simpa [bcrypt.encryptTimes] using h
  | succ n ih => intro block _; exact ih _ (Encrypt_length c block)

/-- With a salt that decodes to a non-empty byte string, `bcrypt` returns the
encoding of 23 bytes. -/
theorem bcrypt_ok (pw : GoString) (cost : Int) (salt csalt : GoString)
    (hd : bcrypt.base64Decode salt = .ok csalt) (hne : csalt ≠ []) :
    ∃ d, d.length = 23 ∧ bcrypt.bcrypt pw cost salt = .ret (.ok (bcrypt.base64Encode d)) := by
  have h0 : csalt.length ≠ 0 := by
    intro h; exact hne (List.length_eq_zero.mp h)
  have hset : ∃ c, bcrypt.expensiveBlowfishSetup pw (cost % 2 ^ 32).toNat salt = .ret (.ok c) := by
    simp [bcrypt.expensiveBlowfishSetup, hd, blowfish.NewSaltedCipher, h0]
  obtain ⟨c, hc⟩ := hset
  refine ⟨_, ?_, by simp only [bcrypt.bcrypt, hc]; rfl⟩
  have h1 := encryptTimes_length c 64 (bcrypt.magicCipherData.take 8) (by decide)
  have h2 := encryptTimes_length c 64 ((bcrypt.magicCipherData.drop 8).take 8) (by decide)
  have h3 := encryptTimes_length c 64 ((bcrypt.magicCipherData.drop 16).take 8) (by decide)
  simp [List.length_take, h1, h2, h3, bcrypt.maxCryptedHashSize]

/-- The digest `bcrypt` returns has 31 characters of the alphabet. -/
theorem bcrypt_digest (pw : GoString) (cost : Int) (salt csalt : GoString)
    (hd : bcrypt.base64Decode salt = .ok csalt) (hne : csalt ≠ []) :
    ∃ h, bcrypt.bcrypt pw cost salt = .ret (.ok h) ∧ h.length = 31 ∧ IsAlpha h := by
  obtain ⟨d, hlen, hb⟩ := bcrypt_ok pw cost salt csalt hd hne
  refine ⟨_, hb, ?_, (base64Encode_shape d).1⟩
  rw [(base64Encode_shape d).2, hlen]

/-! ## The encoded token -/

theorem copyAt_zeros (w src : GoString) (k n : Nat) (hn : n = w.length) (h : src.length ≤ k) :
    bcrypt.copyAt (w ++ List.replicate k 0) n src =
      (w ++ src) ++ List.replicate (k - src.length) 0 := by
  subst hn
  have h1 : (w ++ List.replicate k (0 : UInt8)).length - w.length = k := by simp
  have h2 : List.take k src = src := List.take_of_length_le h
  simp [bcrypt.copyAt, h2, List.drop_append, List.drop_replicate]

theorem set_zeros (w : GoString) (k n : Nat) (x : UInt8) (hn : n = w.length) :
    (w ++ List.replicate (k + 1) 0).set n x = (w ++ [x]) ++ List.replicate k 0 := by
  subst hn
  simp [List.set_append, List.replicate_succ]

/-- The token of a `hashed` with a minor version, a two-digit cost, a salt of
22 bytes and a digest of 31: nothing is cut and nothing is left of the array. -/
theorem Hash_eq (p : bcrypt.hashed) (hm : p.minor ≠ 0)
    (hc : (bcrypt.sprintf02d p.cost).length = 2) (hs : p.salt.length = 22)
    (hh : p.hash.length = 31) :
    p.Hash = [ch '$', p.major, p.minor, ch '$'] ++ bcrypt.sprintf02d p.cost ++ [ch '$'] ++
      p.salt ++ p.hash := by
  have e0 : List.replicate 60 (0 : UInt8) = [] ++ List.replicate (59 + 1) 0 := rfl
  simp only [bcrypt.hashed.Hash, hm, ne_eq, not_false_eq_true, if_true]
  rw [e0, set_zeros [] 59 0 _ rfl]
  rw [set_zeros ([] ++ [ch '$']) 58 1 _ (by simp)]
  rw [set_zeros ([] ++ [ch '$'] ++ [p.major]) 57 2 _ (by simp)]
  rw [set_zeros ([] ++ [ch '$'] ++ [p.major] ++ [p.minor]) 56 (3 : Nat) _ (by simp)]
  rw [copyAt_zeros ([] ++ [ch '$'] ++ [p.major] ++ [p.minor] ++ [ch '$']) _ 56 (3 + 1) (by simp)
    (by omega), hc]
  rw [set_zeros _ 53 (3 + 1 + 2) _ (by simp [hc])]
  rw [copyAt_zeros _ _ 53 (3 + 1 + 2 + 1) (by simp [hc]) (by omega), hs]
  rw [copyAt_zeros _ _ 31 _ (by simp [hc, hs, bcrypt.encodedSaltSize]) (by omega), hh]
  simp [List.take_of_length_le, hc, hs, hh, bcrypt.encodedSaltSize, bcrypt.encodedHashSize]

/-- Parsing gives back what `Hash` encoded. -/
theorem newFromHash_token (d salt hash : GoString) (cost : Int) (hd : d.length = 2)
    (hA : Atoi d = (cost, none)) (hcc : bcrypt.checkCost cost = none)
    (hs : salt.length = 22) (hh : 30 ≤ hash.length) :
    bcrypt.newFromHash
        ([ch '$', bcrypt.majorVersion, bcrypt.minorVersion, ch '$'] ++ d ++ [ch '$'] ++
          salt ++ hash) =
      .ok { hash := hash, salt := salt, cost := cost, major := bcrypt.majorVersion,
            minor := bcrypt.minorVersion } := by
  obtain ⟨d1, d2, rfl⟩ : ∃ d1 d2, d = [d1, d2] := by
    rcases d with _ | ⟨x, _ | ⟨y, _ | ⟨z, r⟩⟩⟩ <;> simp at hd
    exact ⟨x, y, rfl⟩
  have hlen : ¬ ((ch '$' :: bcrypt.majorVersion :: bcrypt.minorVersion :: ch '$' :: d1 :: d2 ::
      ch '$' :: (salt ++ hash)).length < bcrypt.minHashSize) := by
    simp [hs, bcrypt.minHashSize]; omega
  have h1 : ¬ (bcrypt.majorVersion > bcrypt.majorVersion) := by decide
  have h2 : bcrypt.minorVersion ≠ ch '$' := by decide
  have h3 : List.take 2 (d1 :: d2 :: ch '$' :: (salt ++ hash)) = [d1, d2] := rfl
  simp only [bcrypt.newFromHash, List.cons_append, List.nil_append, List.append_assoc, hlen,
    if_false, bcrypt.decodeVersion, List.getD_cons_zero, List.getD_cons_succ, ne_eq, not_true_eq_false, h1, h2,
    not_false_eq_true, if_true, List.drop_succ_cons, List.drop_zero, bcrypt.decodeCost,
    List.append_assoc, h3, hA, hcc, bcrypt.encodedSaltSize]
  rw [← hs, List.take_left' rfl, List.drop_left' rfl]

/-! ## Generating a hash and checking it -/

/-- A cost in the supported range is printed on two digits, which `Atoi` reads back. -/
theorem cost_digits (c : Int) (h1 : 4 ≤ c) (h2 : c ≤ 31) :
    (bcrypt.sprintf02d c).length = 2 ∧ Atoi (bcrypt.sprintf02d c) = (c, none) := by
  interval_cases c <;> decide

theorem checkCost_ok (c : Int) (h1 : 4 ≤ c) (h2 : c ≤ 31) : bcrypt.checkCost c = none := by
  simp [bcrypt.checkCost, bcrypt.MinCost, bcrypt.MaxCost]
  omega

/-- A cost of at most 31, or a cost that `E.lowCost` brings into the range, and
a read of the random source that succeeds: `hash` returns a token, `compare`
accepts the token with the same password, and the cost read from the token is
the cost that was used. -/
theorem hash_compare (E : Env) (rnd : Nat → UInt8) (pw : GoString) (cost c : Int)
    (hrand : E.rand = .ok rnd)
    (hce : (if cost < bcrypt.MinCost then E.lowCost cost else cost) = c)
    (hc1 : 4 ≤ c) (hc2 : c ≤ 31) :
    ∃ T, hash E pw cost = .ret (T, none) ∧ compare T pw = .ret none ∧
      bcrypt.Cost T = .ok c := by
  obtain ⟨hdig, hatoi⟩ := cost_digits c hc1 hc2
  have hck := checkCost_ok c hc1 hc2
  -- the salt
  obtain ⟨hsal, hslen⟩ := base64Encode_shape ((List.range bcrypt.maxSaltSize).map rnd)
  generalize hsalt : bcrypt.base64Encode ((List.range bcrypt.maxSaltSize).map rnd) = salt
    at hsal hslen
  have hslen : salt.length = 22 := by simpa [bcrypt.maxSaltSize] using hslen
  obtain ⟨csalt, hdec, hne⟩ := base64Decode_alpha salt hsal hslen
  -- the digest
  obtain ⟨h, hb, hhlen, -⟩ := bcrypt_digest pw c salt csalt hdec hne
  have hnew : bcrypt.newFromPassword E pw cost =
      .ret (.ok { major := bcrypt.majorVersion, minor := bcrypt.minorVersion, cost := c,
                  salt := salt, hash := h }) := by
    simp only [bcrypt.newFromPassword, hce, hck, hrand, hsalt, hb]
  have hmin : bcrypt.minorVersion ≠ 0 := by decide
  have htok := Hash_eq (⟨h, salt, c, bcrypt.majorVersion, bcrypt.minorVersion⟩ : bcrypt.hashed)
    hmin hdig hslen hhlen
  have hparse := newFromHash_token (bcrypt.sprintf02d c) salt h c hdig hatoi hck hslen
    (by omega)
  simp only at htok
  refine ⟨[ch '$', bcrypt.majorVersion, bcrypt.minorVersion, ch '$'] ++ bcrypt.sprintf02d c ++
    [ch '$'] ++ salt ++ h, ?_, ?_, ?_⟩
  · simp only [hash, bcrypt.GenerateFromPassword, hnew, htok]
  · simp only [compare, bcrypt.CompareHashAndPassword, hparse, hb, if_true]
  · simp only [bcrypt.Cost, hparse]

/-- A cost above `MaxCost` is refused, whatever the password. -/
theorem hash_cost_high (E : Env) (pw : GoString) (cost : Int) (hc : 31 < cost) :
    hash E pw cost =
      .ret ([], some (.wrapped "could not generate bcrypt password hash: "
        (.InvalidCostError cost))) := by
  have h1 : ¬ cost < bcrypt.MinCost := by simp [bcrypt.MinCost]; omega
  have h2 : bcrypt.checkCost cost = some (.InvalidCostError cost) := by
    simp [bcrypt.checkCost, bcrypt.MinCost, bcrypt.MaxCost]; omega
  simp [hash, bcrypt.GenerateFromPassword, bcrypt.newFromPassword, h1, h2]

/-! ## The last character of a digest -/

theorem last_sextet (a b : UInt8) :
    ((a.toNat <<< 16 ||| b.toNat <<< 8) >>> 6 &&& 0x3F) % 4 = 0 := by
  have hb : b.toNat < 256 := b.toNat_lt
  have h1 : b.toNat <<< 8 < 2 ^ 16 := by
    rw [Nat.shiftLeft_eq]; omega
  have h0 : a.toNat <<< 16 ||| b.toNat <<< 8 = 2 ^ 16 * a.toNat + b.toNat <<< 8 := by
    rw [Nat.mul_add_lt_is_or h1, Nat.shiftLeft_eq, Nat.mul_comm]
  rw [h0, Nat.shiftRight_eq_div_pow, Nat.shiftLeft_eq]
  have h2 : ∀ x : Nat, x &&& 0x3F = x % 64 := fun x => Nat.and_pow_two_sub_one_eq_mod x 6
  rw [h2]
  omega

/-- When two bytes are left over, the last character before the padding holds
four bits: its value is a multiple of four. -/
theorem Encode_last (l : GoString) (h : l.length % 3 = 2) :
    ∃ body v, v % 4 = 0 ∧ base64.Encode l = body ++ [base64.encodeChar v, ch '='] := by
  induction l using base64.Encode.induct with
  | case1 a b c rest ih =>
    obtain ⟨body, v, hv, heq⟩ := ih (by simp only [List.length_cons] at h; omega)
    refine ⟨base64.encodeChar ((a.toNat <<< 16 ||| b.toNat <<< 8 ||| c.toNat) >>> 18 &&& 0x3F) ::
      base64.encodeChar ((a.toNat <<< 16 ||| b.toNat <<< 8 ||| c.toNat) >>> 12 &&& 0x3F) ::
      base64.encodeChar ((a.toNat <<< 16 ||| b.toNat <<< 8 ||| c.toNat) >>> 6 &&& 0x3F) ::
      base64.encodeChar ((a.toNat <<< 16 ||| b.toNat <<< 8 ||| c.toNat) &&& 0x3F) :: body,
      v, hv, ?_⟩
    simp only [base64.Encode, heq, List.cons_append]
  | case2 a b =>
    exact ⟨[base64.encodeChar ((a.toNat <<< 16 ||| b.toNat <<< 8) >>> 18 &&& 0x3F),
      base64.encodeChar ((a.toNat <<< 16 ||| b.toNat <<< 8) >>> 12 &&& 0x3F)],
      (a.toNat <<< 16 ||| b.toNat <<< 8) >>> 6 &&& 0x3F, last_sextet a b, rfl⟩
  | case3 a => simp at h
  | case4 => simp at h

theorem base64Encode_last (l : GoString) (h : l.length % 3 = 2) :
    ∃ body v, v % 4 = 0 ∧ bcrypt.base64Encode l = body ++ [base64.encodeChar v] := by
  obtain ⟨body, v, hv, heq⟩ := Encode_last l h
  refine ⟨body, v, hv, ?_⟩
  have h1 : ch '=' = ch '=' := rfl
  simp [bcrypt.base64Encode, bcrypt.stripPadding, heq, encodeChar_ne_pad]

theorem alphabet_multiple_of_four :
    ∀ i, i < 64 → i % 4 = 0 → base64.alphabet.getD i 0 ≠ ch 'L' := by
  decide

/-- No digest of `bcrypt` ends in the character `L`. -/
theorem digest_last_ne (d : GoString) (hd : d.length = 23) (body : GoString) :
    bcrypt.base64Encode d ≠ body ++ [ch 'L'] := by
  intro heq
  obtain ⟨body2, v, hv, h2⟩ := base64Encode_last d (by simp [hd])
  rw [h2] at heq
  have h3 := congrArg List.getLast? heq
  rw [List.getLast?_concat, List.getLast?_concat] at h3
  have h4 : base64.encodeChar v = ch 'L' := Option.some.inj h3
  exact alphabet_multiple_of_four (v % 64) (Nat.mod_lt _ (by norm_num)) (by omega) h4

/-! ## A token that matches no password -/

theorem alteredToken_parse :
    bcrypt.newFromHash alteredToken =
      .ok ⟨str "p2IQg27sMRKH6li2iSG.juJCQ2NO7BL", str "......................", 4,
        bcrypt.majorVersion, bcrypt.minorVersion⟩ := by
  decide

/-- The altered token parses, and `compare` answers every password with
`ErrMismatchedHashAndPassword`. -/
theorem compare_altered (pw : GoString) :
    compare alteredToken pw = .ret (some .ErrMismatchedHashAndPassword) := by
  have hdec : bcrypt.base64Decode (str "......................") = .ok (List.replicate 16 0) := by
    decide
  obtain ⟨d, hdlen, hb⟩ := bcrypt_ok pw 4 (str "......................") _ hdec (by decide)
  have hlen : (bcrypt.base64Encode d).length = 31 := by
    rw [(base64Encode_shape d).2, hdlen]
  have h1 : (⟨str "p2IQg27sMRKH6li2iSG.juJCQ2NO7BL", str "......................", 4,
      bcrypt.majorVersion, bcrypt.minorVersion⟩ : bcrypt.hashed).Hash =
      ([ch '$', bcrypt.majorVersion, bcrypt.minorVersion, ch '$'] ++ bcrypt.sprintf02d 4 ++
        [ch '$'] ++ str "......................") ++
        (str "p2IQg27sMRKH6li2iSG.juJCQ2NO7B" ++ [ch 'L']) := by
    decide
  have h2 := Hash_eq (⟨bcrypt.base64Encode d, str "......................", 4,
    bcrypt.majorVersion, bcrypt.minorVersion⟩ : bcrypt.hashed)
    (show bcrypt.minorVersion ≠ 0 by decide)
    (show (bcrypt.sprintf02d 4).length = 2 by decide)
    (show (str "......................").length = 22 by decide) hlen
  simp only at h2
  simp only [compare, bcrypt.CompareHashAndPassword, alteredToken_parse, hb]
  rw [if_neg]
  intro heq
  rw [h1, h2, List.append_cancel_left_eq] at heq
  exact digest_last_ne d hdlen _ heq.symm

/-! ## `main`, branch by branch -/

/-- Invalid arguments: the help text is printed and the run ends in `log.Fatalln(err)`. -/
theorem main_invalid (U : GoString → GoString) (E : Env) (osArgs : List GoString)
    (a : args) (err : GoError) (h : validateArgs U osArgs = .ret (a, some err)) :
    main U E osArgs = { stdout := [.help], status := .fatal (.err err) } := by
  simp only [main, h]

/-- The branch `case "hash"` of `main` when `hash` fails. -/
theorem main_hash_err (U : GoString → GoString) (E : Env) (osArgs : List GoString)
    (a : args) (T : GoString) (err : GoError) (h : validateArgs U osArgs = .ret (a, none))
    (hcmd : a.cmd = str "hash") (hh : hash E a.pword a.cost = .ret (T, some err)) :
    main U E osArgs = { stdout := [], status := .fatal (.err err) } := by
  simp only [main, h, hcmd, if_true, hh]

/-- The branch `case "hash"` of `main` when `hash` and `compare` succeed. -/
theorem main_hash_ok (U : GoString → GoString) (E : Env) (osArgs : List GoString)
    (a : args) (T : GoString) (h : validateArgs U osArgs = .ret (a, none))
    (hcmd : a.cmd = str "hash") (hh : hash E a.pword a.cost = .ret (T, none))
    (hcmp : compare T a.pword = .ret none) :
    main U E osArgs = { stdout := [.hashLine true a.pword T], status := .ret () } := by
  simp only [main, h, hcmd, if_true, hh, hcmp]

/-- The branch `case "match"` of `main` when `compare` returns an error. -/
theorem main_match_err (U : GoString → GoString) (E : Env) (osArgs : List GoString)
    (a : args) (err : GoError) (h : validateArgs U osArgs = .ret (a, none))
    (hcmd : a.cmd = str "match") (hcmp : compare a.hash a.pword = .ret (some err)) :
    main U E osArgs = { stdout := [], status := .fatal (.err err) } := by
  have h1 := Ne.symm str_hash_ne_match
  simp only [main, h, hcmd, h1, if_false, if_true, hcmp]

/-- The branch `case "match"` of `main` when `compare` returns `nil`. -/
theorem main_match_ok (U : GoString → GoString) (E : Env) (osArgs : List GoString)
    (a : args) (h : validateArgs U osArgs = .ret (a, none))
    (hcmd : a.cmd = str "match") (hcmp : compare a.hash a.pword = .ret none) :
    main U E osArgs = { stdout := [.hashLine true a.pword a.hash], status := .ret () } := by
  have h1 := Ne.symm str_hash_ne_match
  simp only [main, h, hcmd, h1, if_false, if_true, hcmp]

/-- The branch `case "cost"` of `main`. -/
theorem main_cost (U : GoString → GoString) (E : Env) (osArgs : List GoString)
    (a : args) (h : validateArgs U osArgs = .ret (a, none)) (hcmd : a.cmd = str "cost") :
    main U E osArgs =
      match bcrypt.Cost a.hash with
      | .error err => { stdout := [], status := .fatal (.err err) }
      | .ok c => { stdout := [.costLine true a.hash c], status := .ret () } := by
  have h1 := Ne.symm str_hash_ne_cost
  have h2 := Ne.symm str_match_ne_cost
  simp only [main, h, hcmd, h1, h2, if_false, if_true, cost]
  cases bcrypt.Cost a.hash <;> rfl

/-! ## Neither `hash` nor `compare` ends the process -/

theorem setup_not_fatal (pw : GoString) (k : Nat) (salt : GoString) (m : LogMsg) :
    bcrypt.expensiveBlowfishSetup pw k salt ≠ .fatal m := by
  simp only [bcrypt.expensiveBlowfishSetup]
  cases bcrypt.base64Decode salt with
  | error e => simp
  | ok csalt =>
    simp only
    cases blowfish.NewSaltedCipher (pw ++ [0]) csalt with
    | error e => simp
    | ok c => simp only; split_ifs <;> simp

theorem bcrypt_not_fatal (pw : GoString) (cost : Int) (salt : GoString) (m : LogMsg) :
    bcrypt.bcrypt pw cost salt ≠ .fatal m := by
  unfold bcrypt.bcrypt
  generalize (cost % 2 ^ 32).toNat = k
  rcases hs : bcrypt.expensiveBlowfishSetup pw k salt with (e | c) | m2 | m2
  · simp
  · simp
  · exact absurd hs (setup_not_fatal _ _ _ _)
  · simp

theorem newFromPassword_not_fatal (E : Env) (pw : GoString) (cost : Int)
    (m : LogMsg) : bcrypt.newFromPassword E pw cost ≠ .fatal m := by
  simp only [bcrypt.newFromPassword]
  cases bcrypt.checkCost (if cost < bcrypt.MinCost then E.lowCost cost else cost) with
  | some e => simp
  | none =>
    simp only
    cases E.rand with
    | error e => simp
    | ok rnd =>
      simp only
      rcases hb : bcrypt.bcrypt pw (if cost < bcrypt.MinCost then E.lowCost cost else cost)
        (bcrypt.base64Encode (List.map rnd (List.range bcrypt.maxSaltSize))) with
        (e | c) | m2 | m2
      · simp
      · simp
      · exact absurd hb (bcrypt_not_fatal _ _ _ _)
      · simp

theorem hash_not_fatal (E : Env) (pw : GoString) (cost : Int) (m : LogMsg) :
    hash E pw cost ≠ .fatal m := by
  simp only [hash, bcrypt.GenerateFromPassword]
  rcases hn : bcrypt.newFromPassword E pw cost with (e | c) | m2 | m2
  · simp
  · simp
  · exact absurd hn (newFromPassword_not_fatal _ _ _ _)
  · simp

theorem compare_not_fatal (T pw : GoString) (m : LogMsg) : compare T pw ≠ .fatal m := by
  simp only [compare, bcrypt.CompareHashAndPassword]
  cases bcrypt.newFromHash T with
  | error e => simp
  | ok p =>
    simp only
    rcases hb : bcrypt.bcrypt pw p.cost p.salt with (e | c) | m2 | m2
    · simp
    · simp only; split_ifs <;> simp
    · exact absurd hb (bcrypt_not_fatal _ _ _ _)
    · simp

/-- The branch `default` of the switch of `main` is never taken. -/
theorem main_not_default (U : GoString → GoString) (E : Env)
    (osArgs : List GoString) :
    (main U E osArgs).status ≠ .fatal (.text "cmd must be 'hash', 'match' or 'cost'") := by
  obtain ⟨a, err, hv⟩ := validateArgs_ret U osArgs
  rcases err with _ | err
  · obtain ⟨x0, x1, x2, rest, -, -, hcmd⟩ := validateArgs_ok U osArgs a hv
    have h1 := Ne.symm str_hash_ne_match
    have h2 := Ne.symm str_hash_ne_cost
    have h3 := Ne.symm str_match_ne_cost
    rcases hcmd with hcmd | hcmd | hcmd
    · simp only [main, hv, hcmd, if_true]
      rcases hh : hash E a.pword a.cost with ⟨T, _ | e⟩ | m | m
      · simp only
        rcases hc : compare T a.pword with (_ | e) | m | m
        · simp
        · simp
        · exact absurd hc (compare_not_fatal _ _ _)
        · simp [Run.stop]
      · simp
      · exact absurd hh (hash_not_fatal _ _ _ _)
      · simp [Run.stop]
    · simp only [main, hv, hcmd, h1, if_false, if_true]
      rcases hc : compare a.hash a.pword with (_ | e) | m | m
      · simp
      · simp
      · exact absurd hc (compare_not_fatal _ _ _)
      · simp [Run.stop]
    · rw [main_cost U E osArgs a hv hcmd]
      cases bcrypt.Cost a.hash <;> simp
  · rw [main_invalid U E osArgs a err hv]
    simp

/-- The error of `Atoi`, when there is one, is a `NumError`. -/
theorem Atoi_error (s : GoString) :
    (Atoi s).2 = none ∨ ∃ k, (Atoi s).2 = some (.numError "Atoi" s k) := by
  rcases s with _ | ⟨c, cs⟩
  · exact Or.inr ⟨_, rfl⟩
  · simp only [Atoi]
    split_ifs <;> (try split) <;> simp

/-! ## Characters and bytes -/

/-- A text has at least as many bytes as characters: every character is encoded
on one to four bytes. -/
theorem chars_le_bytes (s : String) : s.length ≤ (str s).length := by
  rcases s with ⟨l⟩
  simp only [str, String.length]
  induction l with
  | nil => simp
  | cons c l ih =>
    have hc := Char.utf8Size_pos c
    simp only [List.flatMap_cons, List.length_append, String.length_utf8EncodeChar,
      List.length_cons]
    omega

/-! ## `Atoi` on decimal integers -/

set_option maxRecDepth 100000 in
theorem digit_table :
    ∀ n, n < 256 → (ch '0' ≤ UInt8.ofNat n ∧ UInt8.ofNat n ≤ ch '9') →
      ¬ (UInt8.ofNat n - ch '0' > 9) ∧ UInt8.ofNat n ≠ ch '-' ∧ UInt8.ofNat n ≠ ch '+' := by
  decide

theorem digit_facts (c : UInt8) (h : isDigit c) :
    ¬ (c - ch '0' > 9) ∧ c ≠ ch '-' ∧ c ≠ ch '+' := by
  have hc : UInt8.ofNat c.toNat = c :=
    UInt8.toNat.inj (UInt8.toNat_ofNat_of_lt c.toNat_lt)
  have := digit_table c.toNat c.toNat_lt
  rw [hc] at this
  exact this h

theorem foldl_digits_ge (s : GoString) :
    ∀ acc : Nat, acc ≤ s.foldl (fun n c => n * 10 + (c - ch '0').toNat) acc := by
  induction s with
  | nil => intro acc; simp
  | cons c cs ih =>
    intro acc
    simp only [List.foldl_cons]
    exact le_trans (by omega) (ih _)

theorem atoiLoop_digits (s : GoString) :
    ∀ acc : Nat, (∀ c ∈ s, isDigit c) →
      atoiLoop s (acc : Int) =
        some ((s.foldl (fun n c => n * 10 + (c - ch '0').toNat) acc : Nat) : Int) := by
  induction s with
  | nil => intro acc _; simp [atoiLoop]
  | cons c cs ih =>
    intro acc h
    have hd := (digit_facts c (h c (by simp))).1
    simp only [atoiLoop, hd, if_false, List.foldl_cons]
    have := ih (acc * 10 + (c - ch '0').toNat) (fun x hx => h x (by simp [hx]))
    rw [← this]
    push_cast
    rfl

theorem parseUintLoop_digits (s : GoString) :
    ∀ acc : Nat, (∀ c ∈ s, isDigit c) →
      s.foldl (fun n c => n * 10 + (c - ch '0').toNat) acc < 2 ^ 63 →
      parseUintLoop s acc = (s.foldl (fun n c => n * 10 + (c - ch '0').toNat) acc, none) := by
  induction s with
  | nil => intro acc _ _; simp [parseUintLoop]
  | cons c cs ih =>
    intro acc h hfit
    have hd : ch '0' ≤ c ∧ c ≤ ch '9' := h c (by simp)
    simp only [List.foldl_cons] at hfit ⊢
    have hge := foldl_digits_ge cs (acc * 10 + (c - ch '0').toNat)
    have h1 : ¬ (acc ≥ (2 ^ 64 - 1) / 10 + 1) := by norm_num; omega
    have h2 : (acc * 10 + (c - ch '0').toNat) % 2 ^ 64 = acc * 10 + (c - ch '0').toNat :=
      Nat.mod_eq_of_lt (by omega)
    have h3 : ¬ (acc * 10 + (c - ch '0').toNat < acc * 10 ∨
        acc * 10 + (c - ch '0').toNat > 2 ^ 64 - 1) := by omega
    simp only [parseUintLoop, hd, and_self, if_true, h1, if_false, h2, h3]
    exact ih _ (fun x hx => h x (by simp [hx])) hfit

/-- On a decimal integer that fits the 64-bit `int`, `Atoi` returns its value
and no error. -/
theorem Atoi_decimal (s : GoString) (h : IsDecimal s) (hfit : decimalValue s < 2 ^ 63) :
    Atoi s = (((decimalValue s : Nat) : Int), none) := by
  obtain ⟨hne, hdig⟩ := h
  rcases s with _ | ⟨c, cs⟩
  · exact absurd rfl hne
  · obtain ⟨-, hm, hp⟩ := digit_facts c (hdig c (by simp))
    have hsign : ¬ (c = ch '-' ∨ c = ch '+') := by simp [hm, hp]
    have hsign2 : ¬ (c = ch '+' ∨ c = ch '-') := by simp [hm, hp]
    by_cases hlen : (c :: cs).length < 19
    · have hl : ¬ ((c :: cs).length < 1) := by simp
      have ha := atoiLoop_digits (c :: cs) 0 hdig
      simp only [Nat.cast_zero] at ha
      simp only [Atoi, hlen, if_true, hm, hp, or_self, if_false, hl, ha]
      rfl
    · have hu := parseUintLoop_digits (c :: cs) 0 hdig hfit
      have hfit2 : ¬ (List.foldl (fun n c => n * 10 + (c - ch '0').toNat) 0 (c :: cs) ≥ 2 ^ 63) := by
        have := hfit
        simp only [decimalValue] at this
        omega
      simp only [Atoi, hlen, if_false, ParseInt, hm, hp, or_self, ParseUint, hne, hu]
      simp only [not_false_eq_true, true_and, hfit2, if_false, false_and]
      rfl

/-! ## `compare`, case by case -/

theorem quantumBytes_ne_nil (dbuf : List Nat) (h : 2 ≤ dbuf.length) :
    base64.quantumBytes dbuf ≠ [] := by
  intro hq
  have := congrArg List.length hq
  simp only [base64.quantumBytes, List.length_take, List.length_cons, List.length_nil] at this
  omega

theorem decodePadding_ne_nil (n : Nat) (rest : GoString) (si : Nat) (dbuf : List Nat)
    (out : GoString) (h : base64.decodePadding n rest si dbuf = .ok out) : out ≠ [] := by
  unfold base64.decodePadding at h
  split at h
  · simp at h
  · simp at h
  · next h2 =>
    simp only at h
    split at h
    · simp at h
    · split_ifs at h
      simp only [Except.ok.injEq] at h
      rw [← h]
      exact quantumBytes_ne_nil dbuf (by omega)
  · next h0 h1 h2 =>
    simp only at h
    split_ifs at h
    simp only [Except.ok.injEq] at h
    rw [← h]
    refine quantumBytes_ne_nil dbuf ?_
    rcases dbuf with _ | ⟨a, _ | ⟨b, r⟩⟩
    · exact absurd rfl h0
    · exact absurd rfl h1
    · simp

/-- A decoding that reads a padding character and succeeds gives at least one
byte. -/
theorem decodeLoop_ne_nil (n : Nat) (l : GoString) :
    ∀ (si : Nat) (dbuf : List Nat) (out : GoString), ch '=' ∈ l →
      base64.decodeLoop n l si dbuf = .ok out → out ≠ [] := by
  induction l with
  | nil => intro si dbuf out hm; simp at hm
  | cons c l ih =>
    intro si dbuf out hm h
    simp only [base64.decodeLoop] at h
    by_cases hc : base64.decodeMap c ≠ 0xff
    · have hne : c ≠ ch '=' := by
        intro he; rw [he] at hc; exact hc decodeMap_pad
      have hm2 : ch '=' ∈ l := by
        rcases List.mem_cons.mp hm with h1 | h1
        · exact absurd h1.symm hne
        · exact h1
      rw [if_pos hc] at h
      split_ifs at h
      · split at h
        · simp at h
        · next out2 ho =>
          simp only [Except.ok.injEq] at h
          rw [← h]
          have := ih _ _ _ hm2 ho
          simp [this]
      · exact ih _ _ _ hm2 h
    · rw [if_neg hc] at h
      split_ifs at h with h1 h2
      · have hne : c ≠ ch '=' := by
          rcases h1 with h1 | h1 <;> (rw [h1]; decide)
        have hm2 : ch '=' ∈ l := by
          rcases List.mem_cons.mp hm with h3 | h3
          · exact absurd h3.symm hne
          · exact h3
        exact ih _ _ _ hm2 h
      · exact decodePadding_ne_nil _ _ _ _ _ h

theorem base64Decode_ne_nil (s out : GoString) (h : bcrypt.base64Decode s = .ok out) :
    out ≠ [] := by
  simp only [bcrypt.base64Decode, base64.Decode] at h
  refine decodeLoop_ne_nil _ _ _ _ _ ?_ h
  have hk : 4 - s.length % 4 = (3 - s.length % 4) + 1 := by omega
  rw [hk, List.replicate_succ]
  simp

/-- What `compare` returns, for every hash and every password: the error of a
hash that does not parse; the error of a salt that does not decode; and
otherwise `nil` when the token encoded with the digest of the password is the
token encoded with the digest of the hash, `ErrMismatchedHashAndPassword` when
it is not. -/
theorem compare_cases (T pw : GoString) :
    (∃ err, bcrypt.newFromHash T = .error err ∧ compare T pw = .ret (some err)) ∨
    (∃ p err, bcrypt.newFromHash T = .ok p ∧ bcrypt.base64Decode p.salt = .error err ∧
      compare T pw = .ret (some err)) ∨
    (∃ p csalt d, bcrypt.newFromHash T = .ok p ∧ bcrypt.base64Decode p.salt = .ok csalt ∧
      bcrypt.bcrypt pw p.cost p.salt = .ret (.ok d) ∧
      compare T pw =
        if p.Hash = (⟨d, p.salt, p.cost, p.major, p.minor⟩ : bcrypt.hashed).Hash then .ret none
        else .ret (some .ErrMismatchedHashAndPassword)) := by
  rcases hp : bcrypt.newFromHash T with err | p
  · left
    exact ⟨err, rfl, by simp only [compare, bcrypt.CompareHashAndPassword, hp]⟩
  · right
    rcases hs : bcrypt.base64Decode p.salt with err | csalt
    · left
      refine ⟨p, err, rfl, hs, ?_⟩
      have hb : bcrypt.bcrypt pw p.cost p.salt = .ret (.error err) := by
        simp only [bcrypt.bcrypt, bcrypt.expensiveBlowfishSetup, hs]
      simp only [compare, bcrypt.CompareHashAndPassword, hp, hb]
    · right
      obtain ⟨d, -, hb⟩ := bcrypt_ok pw p.cost p.salt csalt hs (base64Decode_ne_nil _ _ hs)
      refine ⟨p, csalt, _, rfl, hs, hb, ?_⟩
      simp only [compare, bcrypt.CompareHashAndPassword, hp, hb]

/-! ## The claims -/

/-- C1, the code at the failing input `pwHash hash éé`.  The password `éé` has
two characters, fewer than four, and `validateArgs` does not reject it: the test
`len(args.pword) < 4` counts its four bytes, and the call succeeds with the
default cost. -/
theorem C1_two_characters_accepted :
    "éé".length = 2 ∧ (str "éé").length = 4 ∧ ToLower id (str "hash") = str "hash" ∧
      validateArgs id [str "pwHash", str "hash", str "éé"] =
        .ret ({ cmd := str "hash", pword := str "éé", hash := [], outcome := false,
                cost := 4 }, none) := by
  decide

/-- The altered token is well formed and no password matches it. -/
theorem mismatches_altered (pw : GoString) : Mismatches alteredToken pw := by
  have hc := compare_altered pw
  have hdec : bcrypt.base64Decode (str "......................") = .ok (List.replicate 16 0) := by
    decide
  obtain ⟨d, -, hb⟩ := bcrypt_ok pw 4 (str "......................") _ hdec (by decide)
  refine ⟨_, _, alteredToken_parse, hb, ?_⟩
  intro heq
  simp only [compare, bcrypt.CompareHashAndPassword, alteredToken_parse, hb] at hc
  rw [if_pos heq] at hc
  simp at hc

/-- C2, counterexample.  The token `alteredToken` is well formed (it parses, its
cost is 4 and its salt decodes), the password `pass1234` does not match it, and
`compare` returns the error `ErrMismatchedHashAndPassword`; the `match` command
ends in `log.Fatalln` with it and prints no outcome. -/
theorem C2_counterexample :
    bcrypt.Cost alteredToken = .ok 4 ∧
      compare alteredToken (str "pass1234") = .ret (some .ErrMismatchedHashAndPassword) ∧
      main id packageEnv [str "pwHash", str "match", str "pass1234", alteredToken] =
        { stdout := [], status := .fatal (.err .ErrMismatchedHashAndPassword) } := by
  refine ⟨by decide, compare_altered _, ?_⟩
  exact main_match_err id packageEnv _ _ _
    (validateArgs_match id _ (str "match") _ _ (by decide)) rfl (compare_altered _)

/-- C2, amended.  In the `match` command, for every hash `T` and password `pw`:
`compare` always returns, `nil` or an error, never a boolean.  When the hash
parses and its salt decodes, `compare` returns `nil` if the token encoded with
the digest of the password is the token encoded with the digest of the hash, and
the error `ErrMismatchedHashAndPassword` if it is not: a mismatch is an error.
When the hash does not parse, or its salt does not decode, `compare` returns
that error.  On every error of `compare` the run ends in `log.Fatalln` with the
error and nothing is printed; an outcome is printed, and it is `true`, if and
only if `compare` returns `nil`. -/
theorem C2_mismatch_is_an_error (U : GoString → GoString) (E : Env)
    (x0 x1 pw T : GoString) (rest : List GoString) (hcmd : ToLower U x1 = str "match") :
    (∃ r, compare T pw = .ret r) ∧
    (∀ p csalt, bcrypt.newFromHash T = .ok p → bcrypt.base64Decode p.salt = .ok csalt →
      ∃ d, bcrypt.bcrypt pw p.cost p.salt = .ret (.ok d) ∧
        compare T pw =
          if p.Hash = (⟨d, p.salt, p.cost, p.major, p.minor⟩ : bcrypt.hashed).Hash then
            .ret none
          else .ret (some .ErrMismatchedHashAndPassword)) ∧
    (Mismatches T pw → compare T pw = .ret (some .ErrMismatchedHashAndPassword)) ∧
    (∀ err, bcrypt.newFromHash T = .error err → compare T pw = .ret (some err)) ∧
    (∀ p err, bcrypt.newFromHash T = .ok p → bcrypt.base64Decode p.salt = .error err →
      compare T pw = .ret (some err)) ∧
    (∀ err, compare T pw = .ret (some err) →
      main U E (x0 :: x1 :: pw :: T :: rest) =
        { stdout := [], status := .fatal (.err err) }) ∧
    (compare T pw = .ret none ↔
      main U E (x0 :: x1 :: pw :: T :: rest) =
        { stdout := [.hashLine true pw T], status := .ret () }) ∧
    (compare T pw = .ret none ↔ (main U E (x0 :: x1 :: pw :: T :: rest)).stdout ≠ []) := by
  have hv := validateArgs_match U x0 x1 pw (T :: rest) hcmd
  have hret : ∃ r, compare T pw = .ret r := by
    rcases compare_cases T pw with ⟨e, -, h⟩ | ⟨p, e, -, -, h⟩ | ⟨p, cs, d, -, -, -, h⟩
    · exact ⟨_, h⟩
    · exact ⟨_, h⟩
    · rw [h]; split_ifs <;> exact ⟨_, rfl⟩
  have herr : ∀ err, compare T pw = .ret (some err) →
      main U E (x0 :: x1 :: pw :: T :: rest) =
        { stdout := [], status := .fatal (.err err) } :=
    fun err hc => main_match_err U E _ _ _ hv rfl hc
  have hok : compare T pw = .ret none →
      main U E (x0 :: x1 :: pw :: T :: rest) =
        { stdout := [.hashLine true pw T], status := .ret () } :=
    fun hc => main_match_ok U E _ _ hv rfl hc
  refine ⟨hret, ?_, ?_, ?_, ?_, herr, ⟨hok, ?_⟩, ⟨?_, ?_⟩⟩
  · intro p csalt hp hs
    rcases compare_cases T pw with ⟨e, h1, -⟩ | ⟨p2, e, h1, h2, -⟩ | ⟨p2, cs, d, h1, -, h3, h⟩
    · rw [hp] at h1; simp at h1
    · rw [hp] at h1
      simp only [Except.ok.injEq] at h1
      subst h1
      rw [hs] at h2; simp at h2
    · rw [hp] at h1
      simp only [Except.ok.injEq] at h1
      subst h1
      exact ⟨d, h3, h⟩
  · rintro ⟨p, d, hp, hd, hne⟩
    simp only [compare, bcrypt.CompareHashAndPassword, hp, hd]
    rw [if_neg hne]
  · intro err hp
    simp only [compare, bcrypt.CompareHashAndPassword, hp]
  · intro p err hp hs
    rcases compare_cases T pw with ⟨e, h1, -⟩ | ⟨p2, e, h1, h2, h⟩ | ⟨p2, cs, d, h1, h2, -, -⟩
    · rw [hp] at h1; simp at h1
    · rw [hp] at h1
      simp only [Except.ok.injEq] at h1
      subst h1
      rw [hs] at h2
      simp only [Except.error.injEq] at h2
      subst h2
      exact h
    · rw [hp] at h1
      simp only [Except.ok.injEq] at h1
      subst h1
      rw [hs] at h2; simp at h2
  · intro hm
    obtain ⟨r, hr⟩ := hret
    rcases r with _ | err
    · exact hr
    · rw [herr err hr] at hm
      simp at hm
  · intro hc
    rw [hok hc]
    simp
  · intro hm
    obtain ⟨r, hr⟩ := hret
    rcases r with _ | err
    · exact hr
    · rw [herr err hr] at hm
      simp at hm

/-- C2, witness: the altered token and the password `pass1234`, which does not
match it. -/
theorem C2_witness :
    ToLower id (str "match") = str "match" ∧ Mismatches alteredToken (str "pass1234") ∧
      compare alteredToken (str "pass1234") = .ret (some .ErrMismatchedHashAndPassword) ∧
      main id packageEnv [str "pwHash", str "match", str "pass1234", alteredToken] =
        { stdout := [], status := .fatal (.err .ErrMismatchedHashAndPassword) } :=
  ⟨by decide, mismatches_altered _,
    (C2_mismatch_is_an_error id packageEnv (str "pwHash") (str "match") (str "pass1234")
      alteredToken [] (by decide)).2.2.1 (mismatches_altered _),
    (C2_mismatch_is_an_error id packageEnv (str "pwHash") (str "match") (str "pass1234")
      alteredToken [] (by decide)).2.2.2.2.2.1 _ (compare_altered _)⟩

/-- C3, counterexample.  The empty string is not parsed (`ErrHashTooShort`), and
`cost` does not return to its caller: it ends the process itself in
`log.Fatalln`. -/
theorem C3_counterexample :
    bcrypt.Cost (str "") = .error .ErrHashTooShort ∧
      cost (str "") = .fatal (.err .ErrHashTooShort) ∧
      (∀ n : Int, cost (str "") ≠ .ret n) := by
  have h : cost (str "") = .fatal (.err .ErrHashTooShort) := by decide
  refine ⟨by decide, h, ?_⟩
  intro n hn
  rw [h] at hn
  simp at hn

/-- C3, amended.  For every hash string that the bcrypt package cannot parse,
`cost` returns nothing to its caller: it ends the process itself through
`log.Fatalln` with the error of the package, and the `cost` command of `main`
ends that way with nothing printed.  (`cost` returns, an `int` and never an
error, exactly when the hash is parsed.) -/
theorem C3_cost_is_fatal (T : GoString) (err : GoError) (hparse : bcrypt.Cost T = .error err) :
    cost T = .fatal (.err err) ∧
      ∀ (U : GoString → GoString) (E : Env) (x0 x1 : GoString) (rest : List GoString),
        ToLower U x1 = str "cost" →
        main U E (x0 :: x1 :: T :: rest) = { stdout := [], status := .fatal (.err err) } := by
  have hc : cost T = .fatal (.err err) := by simp only [cost, hparse]
  refine ⟨hc, ?_⟩
  intro U E x0 x1 rest hcmd
  rw [main_cost U E _ _ (validateArgs_cost U x0 x1 T rest hcmd) rfl]
  simp only [hparse]

/-- C3, witness: the empty hash string and the command `pwHash cost ""`. -/
theorem C3_witness :
    bcrypt.Cost (str "") = .error .ErrHashTooShort ∧
      cost (str "") = .fatal (.err .ErrHashTooShort) ∧
      main id packageEnv [str "pwHash", str "cost", str ""] =
        { stdout := [], status := .fatal (.err .ErrHashTooShort) } :=
  ⟨by decide, (C3_cost_is_fatal (str "") .ErrHashTooShort (by decide)).1,
    (C3_cost_is_fatal (str "") .ErrHashTooShort (by decide)).2 id packageEnv (str "pwHash")
      (str "cost") [] (by decide)⟩

/-- C4, the code at the failing input `pwHash hash pass1234 3`.  The cost 3 is
below the range 4 to 31 of the help text.  `validateArgs` accepts it, `main.go`
checks no range, and `hash` hands it to the bcrypt package, which sets a cost
below `MinCost` to `DefaultCost`: `hash` succeeds, the token carries the cost
10, and the `hash` command prints `outcome=true` with that token. -/
theorem C4_cost_three_accepted :
    validateArgs id [str "pwHash", str "hash", str "pass1234", str "3"] =
        .ret ({ cmd := str "hash", pword := str "pass1234", hash := [], outcome := false,
                cost := 3 }, none) ∧
      ∃ T, hash packageEnv (str "pass1234") 3 = .ret (T, none) ∧ bcrypt.Cost T = .ok 10 ∧
        main id packageEnv [str "pwHash", str "hash", str "pass1234", str "3"] =
          { stdout := [.hashLine true (str "pass1234") T], status := .ret () } := by
  have hv : validateArgs id [str "pwHash", str "hash", str "pass1234", str "3"] =
      .ret ({ cmd := str "hash", pword := str "pass1234", hash := [], outcome := false,
              cost := 3 }, none) := by
    decide
  obtain ⟨T, h1, h2, h3⟩ :=
    hash_compare packageEnv (fun _ => 0) (str "pass1234") 3 10 rfl (by decide) (by decide)
      (by decide)
  exact ⟨hv, T, h1, h3, main_hash_ok id packageEnv _ _ T hv rfl h1 h2⟩

/-- C5, counterexample.  Two argument lists whose argument 3 is a decimal
integer that the returned `args` does not carry.  With a further argument after
the cost 12 the default cost 4 is used.  The decimal integer
9223372036854775808 does not fit the `int` of `args.cost`: `strconv.Atoi`
reports a range error, which `validateArgs` returns. -/
theorem C5_counterexample :
    validateArgs id [str "pwHash", str "hash", str "pass1234", str "12", str "extra"] =
        .ret ({ cmd := str "hash", pword := str "pass1234", cost := 4 }, none) ∧
      validateArgs id [str "pwHash", str "hash", str "pass1234", str "9223372036854775808"] =
        .ret ({ cmd := str "hash", pword := str "pass1234", cost := 9223372036854775807 },
          some (.numError "Atoi" (str "9223372036854775808") .ErrRange)) := by
  decide

/-- C5, amended.  For every `hash` argument list of exactly four elements with a
password of at least 4 bytes: when argument 3 is a decimal integer that fits the
64-bit `int` (digits only, of value below `2 ^ 63`), and more generally when
`strconv.Atoi` reads it as the integer `n`, `validateArgs` succeeds and the
returned `args` has that integer as `cost`, not the default cost. -/
theorem C5_cost_argument (U : GoString → GoString) (x0 x1 x2 x3 : GoString)
    (hcmd : ToLower U x1 = str "hash") (hlen : 4 ≤ x2.length) :
    (IsDecimal x3 → decimalValue x3 < 2 ^ 63 →
      validateArgs U [x0, x1, x2, x3] =
        .ret ({ cmd := str "hash", pword := x2, hash := [], outcome := false,
                cost := (decimalValue x3 : Nat) }, none)) ∧
    (∀ n : Int, Atoi x3 = (n, none) →
      validateArgs U [x0, x1, x2, x3] =
        .ret ({ cmd := str "hash", pword := x2, hash := [], outcome := false, cost := n },
          none)) := by
  have hv : ∀ n : Int, Atoi x3 = (n, none) →
      validateArgs U [x0, x1, x2, x3] =
        .ret ({ cmd := str "hash", pword := x2, hash := [], outcome := false, cost := n },
          none) := by
    intro n hcost
    rw [validateArgs_hash U x0 x1 x2 [x3] hcmd, if_neg (by omega)]
    simp only [hcost]
  exact ⟨fun hdec hfit => hv _ (Atoi_decimal x3 hdec hfit), hv⟩

/-- C5, witness: the list `pwHash hash pass1234 12`. -/
theorem C5_witness :
    IsDecimal (str "12") ∧ decimalValue (str "12") = 12 ∧
      validateArgs id [str "pwHash", str "hash", str "pass1234", str "12"] =
        .ret ({ cmd := str "hash", pword := str "pass1234", hash := [], outcome := false,
                cost := 12 }, none) :=
  ⟨⟨by decide, by decide⟩, by decide,
    (C5_cost_argument id (str "pwHash") (str "hash") (str "pass1234") (str "12") (by decide)
      (by decide)).1 ⟨by decide, by decide⟩ (by decide)⟩

/-- C6.  For every argument list of exactly three elements whose command
lower-cases to `hash` and whose password has at least 4 bytes, `validateArgs`
succeeds and returns `args` with `cmd = "hash"`, `pword` the password unchanged,
`cost = 4` (the constant `defaultBcryptCost`), `hash` empty and `outcome` false.
A password of at least 4 characters has at least 4 bytes, so this holds of every
text of at least 4 characters. -/
theorem C6_default_cost (U : GoString → GoString) (x0 x1 x2 : GoString)
    (hcmd : ToLower U x1 = str "hash") (hlen : 4 ≤ x2.length) :
    validateArgs U [x0, x1, x2] =
        .ret ({ cmd := str "hash", pword := x2, hash := [], outcome := false, cost := 4 }, none) ∧
      defaultBcryptCost = 4 ∧
      ∀ s : String, 4 ≤ s.length →
        validateArgs U [x0, x1, str s] =
          .ret ({ cmd := str "hash", pword := str s, hash := [], outcome := false, cost := 4 },
            none) := by
  refine ⟨?_, rfl, ?_⟩
  · rw [validateArgs_hash U x0 x1 x2 [] hcmd, if_neg (by omega)]
    rfl
  · intro s hs
    have h := chars_le_bytes s
    rw [validateArgs_hash U x0 x1 (str s) [] hcmd, if_neg (by omega)]
    rfl

/-- C6, witness: the list `pwHash Hash pass`. -/
theorem C6_witness :
    validateArgs id [str "pwHash", str "Hash", str "pass"] =
      .ret ({ cmd := str "hash", pword := str "pass", hash := [], outcome := false,
              cost := 4 }, none) :=
  (C6_default_cost id (str "pwHash") (str "Hash") (str "pass") (by decide) (by decide)).1

/-- C7, counterexample.  The list `pwHash match` has the command `match` and
fewer than 4 elements, and the error of `validateArgs` is
`at least 2 parameters required`, not the error of the `match` branch. -/
theorem C7_counterexample :
    ToLower id (str "match") = str "match" ∧ [str "pwHash", str "match"].length < 4 ∧
      validateArgs id [str "pwHash", str "match"] =
        .ret ({}, some (.errorsNew "at least 2 parameters required")) := by
  decide

/-- C7, amended.  For every argument list of at least three elements whose
command lower-cases to `match`: `validateArgs` returns the error
`'match' requires a 'password' and 'hash'` if and only if the list has fewer than
4 elements, and otherwise succeeds with `pword` = argument 2 and `hash` =
argument 3, both unchanged; the password is not checked for its length. -/
theorem C7_match_arguments (U : GoString → GoString) (x0 x1 x2 : GoString)
    (hcmd : ToLower U x1 = str "match") :
    (∀ rest : List GoString,
      (∃ a, validateArgs U (x0 :: x1 :: x2 :: rest) =
        .ret (a, some (.errorsNew "'match' requires a 'password' and 'hash'"))) ↔
      (x0 :: x1 :: x2 :: rest).length < 4) ∧
    (∀ (x3 : GoString) (r : List GoString),
      validateArgs U (x0 :: x1 :: x2 :: x3 :: r) =
        .ret ({ cmd := str "match", pword := x2, hash := x3, outcome := false, cost := 0 },
          none)) := by
  refine ⟨?_, fun x3 r => validateArgs_match U x0 x1 x2 (x3 :: r) hcmd⟩
  intro rest
  have hv := validateArgs_match U x0 x1 x2 rest hcmd
  rcases rest with _ | ⟨x3, r⟩
  · exact ⟨fun _ => by simp, fun _ => ⟨_, hv⟩⟩
  · constructor
    · rintro ⟨a, ha⟩
      rw [hv] at ha
      simp at ha
    · intro h
      simp only [List.length_cons] at h
      omega

/-- C7, witness: the lists `pwHash MATCH pw` and `pwHash MATCH pw T`, with a
password of two bytes. -/
theorem C7_witness :
    (∃ a, validateArgs id [str "pwHash", str "MATCH", str "pw"] =
        .ret (a, some (.errorsNew "'match' requires a 'password' and 'hash'"))) ∧
      validateArgs id [str "pwHash", str "MATCH", str "pw", sampleToken] =
        .ret ({ cmd := str "match", pword := str "pw", hash := sampleToken, outcome := false,
                cost := 0 }, none) :=
  ⟨((C7_match_arguments id (str "pwHash") (str "MATCH") (str "pw") (by decide)).1 []).2
      (by decide),
    (C7_match_arguments id (str "pwHash") (str "MATCH") (str "pw") (by decide)).2 sampleToken []⟩

/-- C8.  For every password `P` of at least 4 bytes, as every password of at
least 4 characters is, and every cost `C` in 4 to 31, whatever bytes the read of
the random source gives: `hash(P, C)` succeeds with some token `T` and
`compare(T, P)` returns no error; consequently the `hash` command of `main`, on
arguments that `validateArgs` accepts with that password and that cost, prints
the line with `outcome=true`, the password and that token, and ends normally. -/
theorem C8_hash_then_compare (E : Env) (rnd : Nat → UInt8) (P : GoString) (C : Int)
    (hrand : E.rand = .ok rnd) (hmin : 4 ≤ P.length) (hlo : 4 ≤ C) (hhi : C ≤ 31) :
    ∃ T, hash E P C = .ret (T, none) ∧ compare T P = .ret none ∧
      ∀ (U : GoString → GoString) (osArgs : List GoString) (a : args),
        validateArgs U osArgs = .ret (a, none) → a.cmd = str "hash" → a.pword = P →
        a.cost = C →
        main U E osArgs = { stdout := [.hashLine true P T], status := .ret () } := by
  have hce : (if C < bcrypt.MinCost then E.lowCost C else C) = C := by
    rw [if_neg (by simp only [bcrypt.MinCost]; omega)]
  obtain ⟨T, h1, h2, -⟩ := hash_compare E rnd P C C hrand hce hlo hhi
  refine ⟨T, h1, h2, ?_⟩
  intro U osArgs a hv hcmd hp hc
  subst hp hc
  exact main_hash_ok U E osArgs a T hv hcmd h1 h2

/-- C8, witness: the password `pass1234` and the cost 4, the default cost of
the command `pwHash hash pass1234`. -/
theorem C8_witness :
    ∃ T, hash packageEnv (str "pass1234") 4 = .ret (T, none) ∧
      compare T (str "pass1234") = .ret none ∧
      main id packageEnv [str "pwHash", str "hash", str "pass1234"] =
        { stdout := [.hashLine true (str "pass1234") T], status := .ret () } := by
  obtain ⟨T, h1, h2, h3⟩ :=
    C8_hash_then_compare packageEnv (fun _ => 0) (str "pass1234") 4 rfl (by decide) (by decide)
      (by decide)
  exact ⟨T, h1, h2, h3 id _ { cmd := str "hash", pword := str "pass1234", cost := 4 }
    (by decide) rfl rfl rfl⟩

/-- C9.  For every argument list on which `validateArgs` returns no error, the
returned `cmd` is the lower-cased argument 1 and is one of `hash`, `match` and
`cost`; hence `main` never ends in the `default` branch of its switch; and a
list with fewer than 3 elements, or with any other command, yields an error. -/
theorem C9_command_is_known (U : GoString → GoString) (E : Env)
    (input : List GoString) :
    (∀ a, validateArgs U input = .ret (a, none) →
      (∃ x0 x1 x2 rest, input = x0 :: x1 :: x2 :: rest ∧ a.cmd = ToLower U x1) ∧
      (a.cmd = str "hash" ∨ a.cmd = str "match" ∨ a.cmd = str "cost")) ∧
    (main U E input).status ≠ .fatal (.text "cmd must be 'hash', 'match' or 'cost'") ∧
    (input.length < 3 → ∃ a err, validateArgs U input = .ret (a, some err)) ∧
    (∀ x0 x1 rest, input = x0 :: x1 :: rest → ToLower U x1 ≠ str "hash" →
      ToLower U x1 ≠ str "match" → ToLower U x1 ≠ str "cost" →
      ∃ a err, validateArgs U input = .ret (a, some err)) := by
  refine ⟨?_, main_not_default U E input, ?_, ?_⟩
  · intro a ha
    obtain ⟨x0, x1, x2, rest, h1, h2, h3⟩ := validateArgs_ok U input a ha
    exact ⟨⟨x0, x1, x2, rest, h1, h2⟩, h3⟩
  · intro h
    exact ⟨_, _, validateArgs_short U input h⟩
  · intro x0 x1 rest hin h1 h2 h3
    subst hin
    rcases rest with _ | ⟨x2, rest⟩
    · exact ⟨_, _, validateArgs_short U _ (by simp)⟩
    · exact ⟨_, _, validateArgs_other U x0 x1 x2 rest h1 h2 h3⟩

/-- C10.  The function `validateArgs` is total: for every argument list, the
empty list and the lists of 1 or 2 elements included, the call returns a
result; no index expression of the function is out of range, which would be a
panic. -/
theorem C10_validateArgs_total (U : GoString → GoString) (input : List GoString) :
    (∃ a err, validateArgs U input = .ret (a, err)) ∧
      (∀ m, validateArgs U input ≠ .panic m) ∧
      (input.length < 3 →
        validateArgs U input = .ret ({}, some (.errorsNew "at least 2 parameters required"))) := by
  obtain ⟨a, err, h⟩ := validateArgs_ret U input
  refine ⟨⟨a, err, h⟩, ?_, validateArgs_short U input⟩
  intro m hm
  rw [h] at hm
  simp at hm

/-- C9, witness: the list `pwHash COST T` is accepted, with the command `cost`. -/
theorem C9_witness :
    (∃ x0 x1 x2 rest, [str "pwHash", str "COST", sampleToken] = x0 :: x1 :: x2 :: rest ∧
        str "cost" = ToLower id x1) ∧
      (str "cost" = str "hash" ∨ str "cost" = str "match" ∨ str "cost" = str "cost") :=
  (C9_command_is_known id packageEnv [str "pwHash", str "COST", sampleToken]).1
    { cmd := str "cost", hash := sampleToken } (by decide)

/-- C10, witness: the empty argument list. -/
theorem C10_witness :
    ∃ a err, validateArgs id [] = .ret (a, err) :=
  (C10_validateArgs_total id []).1

end PwHash
